import Mathlib

/-!
# Verification of the event-poster extraction orchestration engine

Shallow embedding of the core of the `backend/app` Python package:

* `app/preprocessing/complexity_scorer.py` — `ComplexityScorer.calculate`
  and `RouteDecider.decide`;
* `app/postprocessing/validator.py` — `FieldValidator`;
* `app/postprocessing/normalizer.py` — `FieldNormalizer`;
* `app/core/pipeline.py` — `ExtractionPipeline`.

Modelling conventions.

* Python floats are modelled as exact rationals (`ℚ`); `round(x, 2)` and
  Python's `%.2f`/`:.2f` formatting are modelled with round-half-to-even
  on rationals.
* The external collaborators (OpenCV signal extraction, the OCR engine,
  the two LLM field-extraction calls, and the `dateparser` library) are
  inputs of the embedded functions: the scorer takes the three numeric
  signals, the pipeline takes the port results, the normalizer takes the
  date-parsing function.  A call that may raise is modelled as a
  `CallResult`; a function that may raise is modelled in `Except`.
* JSON scalars that flow through field values are modelled by `Value`
  (null / string / number).  A Python field entry dict is modelled by
  `FieldData`; an absent `'value'` key and `'value': None` are identified
  (both are falsy and behave identically in every consumer), and an empty
  field dict `{}` behaves like `{'value': None}` in every consumer, so it
  is represented the same way.
* Strings are processed as `List Char` with ASCII case folding and ASCII
  whitespace/digit classes (the inputs exercised by the specification are
  ASCII).
-/

/-! ## Basic character and list utilities (Python string primitives) -/

/-- ASCII whitespace, the characters matched by Python's `\s` and stripped
by `str.strip()` on ASCII text. -/
def isPySpace (c : Char) : Bool :=
  c = ' ' || c = '\t' || c = '\n' || c = '\x0d' || c = '\x0b' || c = '\x0c'

/-- ASCII lowercasing of one character (model of `str.lower()` per char). -/
def toLowerAscii (c : Char) : Char :=
  if 'A' ≤ c ∧ c ≤ 'Z' then Char.ofNat (c.toNat + 32) else c

/-- Model of Python `str.lower()` (ASCII fragment). -/
def pyLower (l : List Char) : List Char := l.map toLowerAscii

/-- Model of Python `str.strip()` (ASCII whitespace fragment). -/
def pyStrip (l : List Char) : List Char :=
  ((l.dropWhile isPySpace).reverse.dropWhile isPySpace).reverse

/-- Substring containment, model of Python's `sub in s`. -/
def containsSub (l pat : List Char) : Bool :=
  match l with
  | [] => pat.isEmpty
  | _ :: rest => pat.isPrefixOf l || containsSub rest pat

/-- The numeric value of a decimal digit character. -/
def digVal (c : Char) : Nat := c.toNat - 48

/-- The decimal digit character for `n % 10`. -/
def digitChar10 (n : Nat) : Char := Char.ofNat (48 + n % 10)

/-- Python `"%02d" % n` / `f"{n:02d}"`: decimal representation of `n`
left-padded with zeros to width 2. -/
def pad2 (n : Nat) : List Char :=
  if n < 100 then [digitChar10 (n / 10), digitChar10 n]
  else Nat.toDigits 10 n

/-! ## Exact-rational models of Python numeric primitives -/

/-- Round-half-to-even to an integer, the tie-breaking rule of Python 3's
`round` (on the exact value; floats are modelled as exact rationals). -/
def roundHalfEven (q : ℚ) : ℤ :=
  let f := ⌊q⌋
  if q - f < 1/2 then f
  else if q - f > 1/2 then f + 1
  else if 2 ∣ f then f else f + 1

/-- Model of Python `round(q, 2)`. -/
def pyRound2 (q : ℚ) : ℚ := (roundHalfEven (q * 100) : ℚ) / 100

/-- Python `f"{q:.2f}"` for the non-negative rationals produced by the
validator (confidences). -/
def fmt2 (q : ℚ) : List Char :=
  let k := (roundHalfEven (q * 100)).toNat
  (Nat.toDigits 10 (k / 100)) ++ '.' :: pad2 (k % 100)

/-! ## JSON-ish field values and their Python truthiness -/

/-- A field value as it arrives from the JSON layer: `None`, a string, or
a number. -/
inductive Value where
  | vNull : Value
  | vStr (s : String) : Value
  | vNum (q : ℚ) : Value
deriving DecidableEq, Repr

/-- Python truthiness of a `Value` (`if value:`). -/
def Value.truthy : Value → Bool
  | .vNull => false
  | .vStr s => s ≠ ""
  | .vNum q => q ≠ 0

/-- One entry of the `fields` map (`{'value': …, 'confidence': …,
'source': …, 'normalized': …}`).  `confidence = none` models an absent or
non-numeric `'confidence'` key. -/
structure FieldData where
  value : Value
  confidence : Option ℚ
  source : String := ""
  normalized : Bool := false
deriving DecidableEq, Repr

/-- One entry of the `extra` array. -/
structure ExtraField where
  key : String
  value : Value
  confidence : ℚ
  source : String
deriving DecidableEq, Repr

/-- The `fields` mapping: a Python dict in insertion order with unique
keys, modelled as an association list. -/
abbrev Fields := List (String × FieldData)

/-- Model of `fields.get(name)`. -/
def pyGet (fs : Fields) (k : String) : Option FieldData :=
  (fs.find? (fun p => p.1 = k)).map (·.2)

/-- In-place update `fields[name]['…'] = …`: rewrite the entry at a key,
keeping dict order. -/
def setField (fs : Fields) (k : String) (fd : FieldData) : Fields :=
  fs.map (fun p => if p.1 = k then (k, fd) else p)

/-! ## `ComplexityScore` (app/core/schemas.py) -/

/-- `ComplexityScore` pydantic model. -/
structure ComplexityScore where
  blur_variance : ℚ
  edge_density : ℚ
  text_density : ℚ
  overall_complexity : ℚ
  is_blurry : Bool
deriving DecidableEq, Repr

/-! ## `ComplexityScorer.calculate` (app/preprocessing/complexity_scorer.py)

The three numeric signals (`_calculate_blur`, `_calculate_edge_density`,
`_estimate_text_density`) are produced by OpenCV, an external collaborator;
the embedded `calculate` takes their values as arguments and performs the
combination and thresholding done by the repository code. -/

/-- `ComplexityScorer.calculate`, as a function of the configured
thresholds/weights and of the three externally computed signals. -/
def ComplexityScorer.calculate (blur_threshold edge_weight text_weight : ℚ)
    (blur_score edge_density text_density : ℚ) : ComplexityScore :=
  let overall_complexity := edge_density * edge_weight + text_density * text_weight
  let overall_complexity := min 1 (max 0 overall_complexity)
  { blur_variance := blur_score
    edge_density := edge_density
    text_density := text_density
    overall_complexity := overall_complexity
    is_blurry := blur_score < blur_threshold }

/-! ## `RouteDecider.decide` (app/preprocessing/complexity_scorer.py) -/

/-- `RouteDecider.decide`; `complexity_threshold` is
`config.COMPLEXITY_THRESHOLD` (default `0.7`). -/
def RouteDecider.decide (complexity_threshold : ℚ) (complexity : ComplexityScore) : String :=
  if complexity.is_blurry then "vision"
  else if complexity.overall_complexity > complexity_threshold then "vision"
  else if complexity.text_density > 1/2 && !complexity.is_blurry then "ocr_first"
  else "vision"

/-- The route policy as worded in the specification (§4.3): four rules
evaluated in strict order, first match wins. -/
def routePolicySpec (threshold : ℚ) (score : ComplexityScore) : String :=
  if score.is_blurry = true then "vision"
  else if score.overall_complexity > threshold then "vision"
  else if score.text_density > 1/2 ∧ score.is_blurry = false then "ocr_first"
  else "vision"

/-! ## `FieldValidator` (app/postprocessing/validator.py) -/

/-- `Warning` pydantic model (`model_dump`ed into the envelope). -/
structure Warn where
  wtype : String
  fields : Option (List String) := none
  confidence : Option ℚ := none
  message : String
deriving DecidableEq, Repr

/-- `FieldValidator.CRITICAL_FIELDS`.  The Python attribute is a `set`;
its iteration order is interned-hash dependent, and no claim depends on
the order, so the literal's order is used. -/
def CRITICAL_FIELDS : List String := ["event_name", "date", "venue_name"]

/-- `FieldValidator._check_critical_fields`: critical fields that are
absent or have a falsy (`None`/empty) value. -/
def checkCriticalFields (fields : Fields) : List String :=
  CRITICAL_FIELDS.filter (fun cf =>
    match pyGet fields cf with
    | none => true
    | some fd => !fd.value.truthy)

/-- `FieldValidator._calculate_overall_confidence`: mean of the numeric
per-field confidences, rounded to 2 decimals, `0.0` when there are none. -/
def calculateOverallConfidence (fields : Fields) : ℚ :=
  let confidences := fields.filterMap (fun p => p.2.confidence)
  if confidences.isEmpty then 0
  else pyRound2 (confidences.sum / confidences.length)

/-- `FieldValidator._check_low_confidence_fields` (default threshold
`0.6`): fields with a truthy value and a numeric confidence below the
threshold. -/
def checkLowConfidenceFields (fields : Fields) (threshold : ℚ := 3/5) : List String :=
  (fields.filter (fun p =>
    p.2.value.truthy &&
      match p.2.confidence with
      | some c => decide (c < threshold)
      | none => false)).map (·.1)

/-! ## The result envelope (the dict threaded through the pipeline) -/

/-- `LayoutBlock` pydantic model (`model_dump`ed). -/
structure LayoutBlock where
  text : String
  bbox : List (List Int)
  conf : ℚ
  position : Option String := none
deriving DecidableEq, Repr

/-- The `debug` sub-dict of the raw payload.  `cc_count` is present only
on the OCR-first route. -/
structure DebugInfo where
  blur : ℚ
  edge_density : ℚ
  cc_count : Option Nat := none
deriving DecidableEq, Repr

/-- The `raw` diagnostic payload.  On the vision route the dict has no
`ocr_text`/`layout_blocks` keys, modelled as `none`/`[]`. -/
structure RawData where
  ocr_text : Option String := none
  layout_blocks : List LayoutBlock := []
  debug : DebugInfo
deriving DecidableEq, Repr

/-- The extraction-result envelope.  `confidence` and `warnings` are
absent (`none`) until `FieldValidator.validate` runs; `raw` and `error`
are optional keys. -/
structure Envelope where
  type : String := "event_poster"
  route : String
  complexity_score : ComplexityScore
  confidence : Option ℚ := none
  fields : Fields
  extra : List ExtraField
  raw : Option RawData := none
  warnings : Option (List Warn) := none
  error : Option String := none
deriving DecidableEq, Repr

/-- `FieldValidator.validate`: assigns the overall confidence and the
ordered warnings list. -/
def validate (e : Envelope) : Envelope :=
  let fields := e.fields
  let overall_confidence := calculateOverallConfidence fields
  let missing_critical := checkCriticalFields fields
  let warnings :=
    (if missing_critical.isEmpty then [] else
      [{ wtype := "missing_critical_fields", fields := some missing_critical,
         message := "Missing critical fields: " ++ String.intercalate ", " missing_critical : Warn }])
    ++ (if overall_confidence < 3/5 then
      [{ wtype := "low_confidence", confidence := some overall_confidence,
         message := "Overall confidence is low (" ++ ⟨fmt2 overall_confidence⟩ ++ ")" : Warn }]
      else [])
    ++ (let low := checkLowConfidenceFields fields
        if low.isEmpty then [] else
        [{ wtype := "low_field_confidence", fields := some low,
           message := "Some fields have low confidence: " ++ String.intercalate ", " low : Warn }])
  { e with confidence := some overall_confidence, warnings := some warnings }

/-- `FieldValidator.is_extraction_sufficient` (default
`min_confidence = 0.5`).  An envelope with no `'confidence'` key yields
`extraction_result.get('confidence', 0.0) = 0.0`. -/
def isExtractionSufficient (e : Envelope) (min_confidence : ℚ := 1/2) : Bool :=
  let fields := e.fields
  let overall_confidence := e.confidence.getD 0
  let missing_critical := checkCriticalFields fields
  if missing_critical.length ≥ 2 then false
  else if overall_confidence < min_confidence then false
  else true

/-! ## `FieldNormalizer` (app/postprocessing/normalizer.py)

### Time normalization

`_convert_to_24h` uses `re.search` with the patterns
`(\d{1,2}):(\d{2})\s*([ap]m)?` and `(\d{1,2})\s*([ap]m)` (IGNORECASE).
`re.search` is modelled by trying a hand-compiled matcher at every start
position, left to right.  In both patterns, when the greedy two-digit
`\d{1,2}` fails the rest of the pattern, backtracking to one digit cannot
succeed either (the next required character class excludes digits), so the
matcher commits to the greedy reading. -/

/-- The `[ap]m` meridiem group, lowercased as the Python code does. -/
inductive Meridiem where
  | am : Meridiem
  | pm : Meridiem
deriving DecidableEq, Repr

/-- Match `[ap]m` (IGNORECASE) at the head of the list. -/
def merAt : List Char → Option Meridiem
  | c :: m :: _ =>
    if (c = 'a' ∨ c = 'A') ∧ (m = 'm' ∨ m = 'M') then some .am
    else if (c = 'p' ∨ c = 'P') ∧ (m = 'm' ∨ m = 'M') then some .pm
    else none
  | _ => none

/-- Match `\s*([ap]m)?`: skip the maximal whitespace run, then optionally
take a meridiem (the optional group cannot consume whitespace, so the
greedy `\s*` never backtracks). -/
def merAfterSpaces (l : List Char) : Option Meridiem :=
  merAt (l.dropWhile isPySpace)

/-- Match `:(\d{2})\s*([ap]m)?` at the head of the list, returning the
minute digits and the optional meridiem. -/
def colonMM : List Char → Option (List Char × Option Meridiem)
  | ':' :: m1 :: m2 :: rest =>
    if m1.isDigit && m2.isDigit then some ([m1, m2], merAfterSpaces rest)
    else none
  | _ => none

/-- Match pattern 1, `(\d{1,2}):(\d{2})\s*([ap]m)?`, anchored at the head
of the list: hour value, minute digits, optional meridiem. -/
def matchP1At : List Char → Option (Nat × List Char × Option Meridiem)
  | c1 :: rest =>
    if c1.isDigit then
      match rest with
      | c2 :: rest2 =>
        if c2.isDigit then
          -- greedy two-digit hour; backtracking to one digit would need
          -- `c2 = ':'`, impossible for a digit
          (colonMM rest2).map (fun r => (digVal c1 * 10 + digVal c2, r))
        else
          (colonMM rest).map (fun r => (digVal c1, r))
      | [] => none
    else none
  | [] => none

/-- `re.search` of pattern 1: first start position with a match. -/
def searchP1 : List Char → Option (Nat × List Char × Option Meridiem)
  | [] => none
  | c :: rest =>
    match matchP1At (c :: rest) with
    | some r => some r
    | none => searchP1 rest

/-- Match pattern 2, `(\d{1,2})\s*([ap]m)`, anchored at the head of the
list: hour value and meridiem. -/
def matchP2At : List Char → Option (Nat × Meridiem)
  | c1 :: rest =>
    if c1.isDigit then
      match rest with
      | c2 :: rest2 =>
        if c2.isDigit then
          -- greedy two-digit hour; backtracking to one digit would need
          -- `[ap]` to match the digit `c2`, impossible
          (merAfterSpaces rest2).map (fun m => (digVal c1 * 10 + digVal c2, m))
        else
          (merAfterSpaces rest).map (fun m => (digVal c1, m))
      | [] => none
    else none
  | [] => none

/-- `re.search` of pattern 2: first start position with a match. -/
def searchP2 : List Char → Option (Nat × Meridiem)
  | [] => none
  | c :: rest =>
    match matchP2At (c :: rest) with
    | some r => some r
    | none => searchP2 rest

/-- The 12-hour → 24-hour adjustment of `_convert_to_24h`:
`pm` with hour < 12 adds 12, `am` with hour 12 becomes 0. -/
def adjustHour (hour : Nat) (meridiem : Option Meridiem) : Nat :=
  if meridiem = some .pm ∧ hour < 12 then hour + 12
  else if meridiem = some .am ∧ hour = 12 then 0
  else hour

/-- `FieldNormalizer._convert_to_24h` on the character list of the input
string; `none` models Python `None`. -/
def convertTo24h (l : List Char) : Option (List Char) :=
  match searchP1 l with
  | some (hour, minute, meridiem) =>
    some (pad2 (adjustHour hour meridiem) ++ ':' :: minute)
  | none =>
    match searchP2 l with
    | some (hour, meridiem) =>
      some (pad2 (adjustHour hour (some meridiem)) ++ ':' :: ['0', '0'])
    | none => none

/-! `re.split(r'\s*-\s*|\s+to\s+', time_str, flags=IGNORECASE)`:
non-overlapping leftmost matches of the separator pattern, alternative 1
preferred. -/

/-- Length of the separator match anchored at the head of the list, if
any: `\s*-\s*` first, else `\s+to\s+`.  Greedy whitespace runs cannot
backtrack usefully because `-`/`t` are not whitespace. -/
def matchSepAt (l : List Char) : Option Nat :=
  let k := (l.takeWhile isPySpace).length
  match l.drop k with
  | '-' :: rest => some (k + 1 + (rest.takeWhile isPySpace).length)
  | c1 :: c2 :: rest =>
    if 0 < k ∧ (c1 = 't' ∨ c1 = 'T') ∧ (c2 = 'o' ∨ c2 = 'O')
        ∧ 0 < (rest.takeWhile isPySpace).length then
      some (k + 2 + (rest.takeWhile isPySpace).length)
    else none
  | _ => none

/-- Splitting scanner.  `fuel` only bounds the recursion; every separator
match consumes at least one character, so `fuel = l.length + 1` is never
exhausted and the first branch is unreachable. -/
def splitSepGo : Nat → List Char → List Char → List (List Char)
  | 0, l, acc => [acc.reverse ++ l]
  | fuel + 1, l, acc =>
    match matchSepAt l with
    | some n => acc.reverse :: splitSepGo fuel (l.drop n) []
    | none =>
      match l with
      | [] => [acc.reverse]
      | c :: rest => splitSepGo fuel rest (c :: acc)

/-- Model of `re.split(r'\s*-\s*|\s+to\s+', l, flags=IGNORECASE)`. -/
def splitSep (l : List Char) : List (List Char) :=
  splitSepGo (l.length + 1) l []

/-- `FieldNormalizer._normalize_time` on the character list: on a range
separator (`-` anywhere, or `to` in the lowercased string), split and
normalize both endpoints; rejoin only when both endpoints convert;
otherwise fall through to single-value conversion; unparsable input is
returned as-is. -/
def normalizeTimeL (l : List Char) : List Char :=
  let single := (convertTo24h l).getD l
  if l.contains '-' || containsSub (pyLower l) ['t', 'o'] then
    match splitSep l with
    | [a, b] =>
      match convertTo24h (pyStrip a), convertTo24h (pyStrip b) with
      | some s, some e => s ++ '-' :: e
      | _, _ => single
    | _ => single
  else single

/-- `FieldNormalizer._normalize_time` at the `String` level. -/
def normalizeTime (s : String) : String := ⟨normalizeTimeL s.data⟩

/-! ### Phone, email, URL normalization -/

/-- `re.sub(r'\D', '', phone)`: keep the digits (ASCII fragment). -/
def pyDigits (l : List Char) : List Char := l.filter Char.isDigit

/-- `FieldNormalizer._normalize_phone`: 10 digits → `(XXX) XXX-XXXX`;
11 digits starting with `1` → `+1 (XXX) XXX-XXXX`; otherwise the original
string. -/
def normalizePhoneL (l : List Char) : List Char :=
  let digits := pyDigits l
  if digits.length = 10 then
    '(' :: digits.take 3 ++ ')' :: ' ' :: (digits.drop 3).take 3
      ++ '-' :: digits.drop 6
  else if digits.length = 11 ∧ digits.head? = some '1' then
    '+' :: '1' :: ' ' :: '(' :: (digits.drop 1).take 3 ++ ')' :: ' '
      :: (digits.drop 4).take 3 ++ '-' :: digits.drop 7
  else l

/-- `FieldNormalizer._normalize_email`: `email.lower().strip()`. -/
def normalizeEmailL (l : List Char) : List Char := pyStrip (pyLower l)

/-- `FieldNormalizer._normalize_url`: trim; prefix `https://` when there
is no `http(s)://` scheme and the value contains a dot or starts with
`www.`. -/
def normalizeUrlL (l : List Char) : List Char :=
  let url := pyStrip l
  if "http://".data.isPrefixOf url || "https://".data.isPrefixOf url then url
  else if url.contains '.' ∧ ¬ "www.".data.isPrefixOf url then "https://".data ++ url
  else if "www.".data.isPrefixOf url then "https://".data ++ url
  else url

/-! ### Date normalization

`_normalize_date` delegates parsing to the external `dateparser` library
(with `PREFER_DATES_FROM: future`) inside `try/except`; any exception —
including the `TypeError` raised on non-string input — is swallowed and
the original value is returned.  The parser is a parameter of the
embedding. -/

/-- A calendar date as returned by the external parser. -/
structure PyDate where
  year : Nat
  month : Nat
  day : Nat
deriving DecidableEq, Repr

/-- Python `date.isoformat()`: `YYYY-MM-DD`, zero-padded (years of
`datetime.date` are in 1..9999, printed with `%04d`). -/
def PyDate.isoformat (d : PyDate) : String :=
  ⟨pad2 (d.year / 100) ++ pad2 d.year ++ '-' :: pad2 d.month ++ '-' :: pad2 d.day⟩

/-- The type of the external date parser
(`dateparser.parse(·, settings={'PREFER_DATES_FROM': 'future'})`). -/
abbrev DateParser := String → Option PyDate

/-- `FieldNormalizer._normalize_date`: total — parsing failures and the
exceptions raised on non-string values are swallowed by the
`try/except`. -/
def normalizeDateV (dp : DateParser) : Value → Value
  | .vStr s =>
    match dp s with
    | some d => .vStr d.isoformat
    | none => .vStr s
  | v => v

/-! ### The value-level normalizers that can raise

`_normalize_time`, `_normalize_phone`, `_normalize_email` and
`_normalize_url` apply string operations (`in`, `re.sub`, `.lower()`,
`.strip()`) directly to the field value; on a non-string (e.g. numeric)
truthy value these raise `TypeError`/`AttributeError`, which nothing in
`FieldNormalizer.normalize` catches. -/

def normalizeTimeV : Value → Except String Value
  | .vStr s => .ok (.vStr (normalizeTime s))
  | .vNum _ => .error "TypeError: argument of type 'int' is not iterable"
  | .vNull => .ok .vNull

def normalizePhoneV : Value → Except String Value
  | .vStr s => .ok (.vStr ⟨normalizePhoneL s.data⟩)
  | .vNum _ => .error "TypeError: expected string or bytes-like object"
  | .vNull => .ok .vNull

def normalizeEmailV : Value → Except String Value
  | .vStr s => .ok (.vStr ⟨normalizeEmailL s.data⟩)
  | .vNum _ => .error "AttributeError: 'int' object has no attribute 'lower'"
  | .vNull => .ok .vNull

def normalizeUrlV : Value → Except String Value
  | .vStr s => .ok (.vStr ⟨normalizeUrlL s.data⟩)
  | .vNum _ => .error "AttributeError: 'int' object has no attribute 'strip'"
  | .vNull => .ok .vNull

/-! ### `FieldNormalizer.normalize` -/

/-- One normalization step of `FieldNormalizer.normalize`: if the field is
present and its value truthy, normalize the value; on a change, write it
back and set `normalized = True`. -/
def normStep (norm : Value → Except String Value) (f : String)
    (fs : Fields) : Except String Fields :=
  match pyGet fs f with
  | none => .ok fs
  | some fd =>
    if fd.value.truthy then
      match norm fd.value with
      | .error e => .error e
      | .ok nv =>
        if nv ≠ fd.value then
          .ok (setField fs f { fd with value := nv, normalized := true })
        else .ok fs
    else .ok fs

/-- The field names rewritten by `FieldNormalizer.normalize`, in program
order. -/
def normalizeSteps (dp : DateParser) : List (String × (Value → Except String Value)) :=
  [("date", fun v => .ok (normalizeDateV dp v)),
   ("start_date", fun v => .ok (normalizeDateV dp v)),
   ("end_date", fun v => .ok (normalizeDateV dp v)),
   ("time", normalizeTimeV),
   ("start_time", normalizeTimeV),
   ("end_time", normalizeTimeV),
   ("contact_phone", normalizePhoneV),
   ("contact_email", normalizeEmailV),
   ("website", normalizeUrlV),
   ("registration_link", normalizeUrlV)]

/-- `FieldNormalizer.normalize`: rewrite the normalizable fields in order.
`Except.error` models an uncaught exception escaping `normalize`. -/
def FieldNormalizer.normalize (dp : DateParser) (e : Envelope) : Except String Envelope := do
  let fs ← (normalizeSteps dp).foldlM (fun fs (step : String × _) => normStep step.2 step.1 fs) e.fields
  .ok { e with fields := fs }

/-! ## `ExtractionPipeline` (app/core/pipeline.py)

The pipeline's effectful collaborators are inputs of the embedding:

* image preprocessing and complexity scoring yield the `ComplexityScore`
  argument (a decode failure aborts before any envelope exists and is out
  of scope here);
* `ocr_extractor.extract` yields the `OcrOutput` argument (per its
  contract it does not raise);
* `llm_adapter.text_to_json` / `image_to_json` yield a `CallResult`: an
  exception (`raised`) or a returned dict (`ok`), which in turn may carry
  an `'error'` key. -/

/-- The dict returned by a field-extraction port call:
`llm_result.get('fields', {})`, `llm_result.get('extra', [])`,
`'error' in llm_result`. -/
structure LLMResult where
  fields : Fields := []
  extra : List ExtraField := []
  error : Option String := none
deriving DecidableEq, Repr

/-- An awaited port call: normal return or raised exception. -/
inductive CallResult (α : Type) where
  | ok (val : α) : CallResult α
  | raised (msg : String) : CallResult α
deriving DecidableEq, Repr

/-- The dict returned by `ocr_extractor.extract`. -/
structure OcrOutput where
  text : String
  blocks : List LayoutBlock
deriving DecidableEq, Repr

/-- The failure of a field-extraction port call, if any: a raised
exception or a structured `'error'` payload (`str(e)` resp.
`llm_result['error']`). -/
def CallResult.failure : CallResult LLMResult → Option String
  | .raised msg => some msg
  | .ok r => r.error

/-- The `raw` payload built by `_ocr_first_route` (`result['raw']`). -/
def cheapRaw (complexity : ComplexityScore) (ocr : OcrOutput) : RawData :=
  { ocr_text := some ocr.text
    layout_blocks := ocr.blocks
    debug := { blur := complexity.blur_variance
               edge_density := complexity.edge_density
               cc_count := some ocr.blocks.length } }

/-- The default `raw` payload built by `_vision_route` when no OCR data is
preserved (`preserve_ocr or {...}`). -/
def visionDefaultRaw (complexity : ComplexityScore) : RawData :=
  { debug := { blur := complexity.blur_variance
               edge_density := complexity.edge_density } }

/-- `route_override or "vision"` (Python `or`: `None` and `""` are
falsy). -/
def routeNameOf (route_override : Option String) : String :=
  match route_override with
  | some s => if s = "" then "vision" else s
  | none => "vision"

/-- `ExtractionPipeline._vision_route`. -/
def visionRoute (complexity : ComplexityScore) (vres : CallResult LLMResult)
    (route_override : Option String := none) (preserve_ocr : Option RawData := none) :
    Envelope :=
  let route_name := routeNameOf route_override
  match vres with
  | .raised msg =>
    { route := route_name, complexity_score := complexity, fields := [], extra := [],
      raw := preserve_ocr, error := some msg }
  | .ok r =>
    match r.error with
    | some err =>
      { route := route_name, complexity_score := complexity, fields := [], extra := [],
        raw := preserve_ocr, error := some err }
    | none =>
      { route := route_name, complexity_score := complexity, fields := r.fields,
        extra := r.extra,
        raw := some (preserve_ocr.getD (visionDefaultRaw complexity)) }

/-- The envelope dict built by `_ocr_first_route` after a successful
`text_to_json` call (before the sufficiency check; note it has no
`'confidence'` key yet). -/
def buildOcrResult (complexity : ComplexityScore) (ocr : OcrOutput)
    (r : LLMResult) : Envelope :=
  { route := "ocr_first", complexity_score := complexity,
    fields := r.fields, extra := r.extra,
    raw := some (cheapRaw complexity ocr) }

/-- `ExtractionPipeline._ocr_first_route`: on a raised exception or a
structured error from `text_to_json`, fall back to the vision route with
`route_override="ocr_fallback_vision"` (no `preserve_ocr` argument on
these two paths); on success, consult
`validator.is_extraction_sufficient(result)` and fall back — carrying
`preserve_ocr=result['raw']` — when insufficient. -/
def ocrFirstRoute (complexity : ComplexityScore) (ocr : OcrOutput)
    (tres vres : CallResult LLMResult) : Envelope :=
  match tres with
  | .raised _ => visionRoute complexity vres (some "ocr_fallback_vision")
  | .ok r =>
    match r.error with
    | some _ => visionRoute complexity vres (some "ocr_fallback_vision")
    | none =>
      let result := buildOcrResult complexity ocr r
      if ¬ isExtractionSufficient result then
        visionRoute complexity vres (some "ocr_fallback_vision") result.raw
      else result

/-- The route selection of `ExtractionPipeline.process` step 3:
`params.get('force_route')` if truthy, else `route_decider.decide`. -/
def routeOf (complexity_threshold : ℚ) (complexity : ComplexityScore)
    (force_route : Option String) : String :=
  match force_route with
  | some s => if s = "" then RouteDecider.decide complexity_threshold complexity else s
  | none => RouteDecider.decide complexity_threshold complexity

/-- `ExtractionPipeline.process` from the scoring stage on: route, extract
(with fallback), normalize, validate.  An `Except.error` is an exception
escaping the pipeline (the normalizer is the only stage here that can
raise). -/
def ExtractionPipeline.process (dp : DateParser) (complexity_threshold : ℚ)
    (complexity : ComplexityScore) (force_route : Option String)
    (ocr : OcrOutput) (tres vres : CallResult LLMResult) : Except String Envelope :=
  let route := routeOf complexity_threshold complexity force_route
  let result :=
    if route = "ocr_first" then ocrFirstRoute complexity ocr tres vres
    else visionRoute complexity vres
  (FieldNormalizer.normalize dp result).map validate

/-! ## Specification-side definitions (for refinement claims)

These are written from the specification's words (§4.6 Contract A), to be
compared with the definitions embedded from the source. -/

/-- Spec §4.6: `confidence = round(mean(confidence over all present
fields), 2)` (0.0 if no fields). -/
def specOverallConfidence (fields : Fields) : ℚ :=
  let confs := fields.filterMap (fun p => p.2.confidence)
  if confs.isEmpty then 0 else pyRound2 (confs.sum / confs.length)

/-- Spec §4.6: the ordered warnings — `missing_critical_fields` when a
critical field is absent or has a null/empty value, then `low_confidence`
when the overall confidence is below 0.6, then `low_field_confidence`
listing every field with a non-empty value and confidence below 0.6.
Warnings are compared on their `(type, fields, confidence)` content. -/
def specWarnings (fields : Fields) : List (String × Option (List String) × Option ℚ) :=
  let missing := CRITICAL_FIELDS.filter (fun cf =>
    match pyGet fields cf with
    | none => true
    | some fd => !fd.value.truthy)
  let low := (fields.filter (fun p =>
    p.2.value.truthy && match p.2.confidence with
      | some conf => decide (conf < 3/5)
      | none => false)).map (·.1)
  (if missing.isEmpty then [] else [("missing_critical_fields", some missing, none)])
    ++ (if specOverallConfidence fields < 3/5 then
          [("low_confidence", none, some (specOverallConfidence fields))] else [])
    ++ (if low.isEmpty then [] else [("low_field_confidence", some low, none)])

/-! ## Safety domain of the normalizer

`FieldNormalizer.normalize` applies string operations to the values of the
ten normalizable fields; it can only raise when one of those values is a
truthy non-string. -/

/-- The field names `FieldNormalizer.normalize` rewrites. -/
def NORMALIZED_FIELDS : List String :=
  ["date", "start_date", "end_date", "time", "start_time", "end_time",
   "contact_phone", "contact_email", "website", "registration_link"]

/-- A value the normalizer cannot raise on: a string, or falsy. -/
def Value.stringish : Value → Bool
  | .vStr _ => true
  | .vNull => true
  | .vNum q => q == 0

/-- Every normalizable field of the map is absent or holds a `stringish`
value. -/
def safeFields (fs : Fields) : Bool :=
  NORMALIZED_FIELDS.all (fun f =>
    match pyGet fs f with
    | none => true
    | some fd => fd.value.stringish)

/-- `safeFields` lifted through an extraction-port result. -/
def CallResult.safe : CallResult LLMResult → Bool
  | .ok r => safeFields r.fields
  | .raised _ => true

/-! ## Shared concrete inputs for witnesses and counterexamples -/

/-- A date parser that parses nothing (vacuously ISO-stable). -/
def dpNone : DateParser := fun _ => none

/-- A sharp, text-dense, non-blurry complexity score:
`blur_variance = 500` (≥ the default threshold 100), `edge_density = 0.2`,
`text_density = 0.8`, `overall_complexity = 0.2·0.4 + 0.8·0.6 = 0.56`. -/
def exScoreTextDense : ComplexityScore := ⟨500, 1/5, 4/5, 14/25, false⟩

/-- A blurry complexity score. -/
def exScoreBlurry : ComplexityScore := ⟨50, 1/5, 4/5, 14/25, true⟩

/-- A non-blurry, high-complexity, text-dense score. -/
def exScoreComplex : ComplexityScore := ⟨500, 1, 4/5, 22/25, false⟩

/-- A concrete OCR port output. -/
def exOcr : OcrOutput := ⟨"EVENT POSTER", []⟩

/-- A successful field extraction with all three critical fields present
at high per-field confidence (mean 2.77/3, which rounds to 0.92). -/
def exGoodFields : Fields :=
  [("event_name", { value := .vStr "Tech Conference", confidence := some (19/20), source := "line 1" }),
   ("date", { value := .vStr "2026-03-15", confidence := some (9/10), source := "line 2" }),
   ("venue_name", { value := .vStr "Convention Center", confidence := some (23/25), source := "line 4" })]

/-- A successful `text_to_json`/`image_to_json` call returning
`exGoodFields`. -/
def exLlmOk : CallResult LLMResult := .ok { fields := exGoodFields }

/-- A `text_to_json` call returning a structured error payload. -/
def exLlmErr : CallResult LLMResult := .ok { error := some "Invalid JSON response" }

/-- An `image_to_json` call that raises. -/
def exLlmRaised : CallResult LLMResult := .raised "Gemini API unavailable"

/-- An envelope whose `time` field holds the number `5` — a truthy
non-string value, as the JSON layer may produce. -/
def exNumTimeEnvelope : Envelope :=
  { route := "ocr_first", complexity_score := exScoreTextDense,
    fields := [("time", { value := .vNum 5, confidence := some (9/10), source := "line 3" })],
    extra := [] }

/-- An envelope exercising every normalizer rewrite. -/
def exNormEnvelope : Envelope :=
  { route := "ocr_first", complexity_score := exScoreTextDense,
    fields :=
      [("event_name", { value := .vStr "Tech Conference", confidence := some (19/20), source := "l1" }),
       ("date", { value := .vStr "March 15 2026", confidence := some (9/10), source := "l2" }),
       ("time", { value := .vStr "9am-5pm", confidence := some (17/20), source := "l3" }),
       ("contact_phone", { value := .vStr "5551234567", confidence := some (17/20), source := "l4" }),
       ("contact_email", { value := .vStr " Foo@Bar.COM ", confidence := some (9/10), source := "l5" }),
       ("website", { value := .vStr "example.com", confidence := some (19/20), source := "l6" })],
    extra := [] }

/-- The spec's validator example: fields `a` (confidence 0.8) and `b`
(confidence 0.4). -/
def exTwoFieldEnvelope : Envelope :=
  { route := "ocr_first", complexity_score := exScoreTextDense,
    fields := [("a", { value := .vStr "va", confidence := some (4/5), source := "s" }),
               ("b", { value := .vStr "vb", confidence := some (2/5), source := "s" })],
    extra := [] }

/-! # Theorems -/

/-! ## Helper lemmas: sufficiency gate -/

/-- With no `'confidence'` key the gate compares `0.0 < min_confidence`,
so a positive minimum always forces a fallback. -/
theorem sufficient_of_confidence_none (e : Envelope) (mc : ℚ)
    (h : e.confidence = none) (hmc : 0 < mc) :
    isExtractionSufficient e mc = false := by
  unfold isExtractionSufficient
  rw [h]
  simp only [Option.getD_none]
  split_ifs <;> simp_all

/-- C3 helper: the ocr-first branch of the pipeline always reaches the
fallback when the text extraction succeeds, because the freshly built
result has no confidence yet. -/
theorem buildOcrResult_confidence (c : ComplexityScore) (ocr : OcrOutput)
    (r : LLMResult) : (buildOcrResult c ocr r).confidence = none := rfl

/-! ## C3 — route decider -/

/-- C3: `RouteDecider.decide` is a pure total function of the score equal
to the spec's first-match policy: blurry → vision; else overall
complexity above the threshold → vision; else text density above 0.5 and
not blurry → ocr_first; else vision.  In particular every blurry score
routes to vision, and every non-blurry score above the complexity
threshold routes to vision even when text density exceeds 0.5. -/
theorem C3_route_decider_first_match :
    (∀ th c, RouteDecider.decide th c = routePolicySpec th c) ∧
    (∀ th c, c.is_blurry = true → RouteDecider.decide th c = "vision") ∧
    (∀ th c, c.is_blurry = false → c.overall_complexity > th →
      c.text_density > 1/2 → RouteDecider.decide th c = "vision") := by
  refine ⟨fun th c => ?_, fun th c hb => ?_, fun th c hb hoc _ => ?_⟩
  · cases hb : c.is_blurry <;>
      simp [RouteDecider.decide, routePolicySpec, hb]
  · simp [RouteDecider.decide, hb]
  · simp [RouteDecider.decide, hb, hoc]

/-- Witness for C3 at concrete scores: a blurry score and a non-blurry
over-threshold text-dense score both route to vision. -/
theorem C3_route_decider_first_match_witness :
    RouteDecider.decide (7/10) exScoreBlurry = "vision" ∧
    RouteDecider.decide (7/10) exScoreComplex = "vision" :=
  ⟨C3_route_decider_first_match.2.1 (7/10) exScoreBlurry rfl,
   C3_route_decider_first_match.2.2 (7/10) exScoreComplex rfl
     (by norm_num [exScoreComplex]) (by norm_num [exScoreComplex])⟩

/-! ## C10 — blur flag and clamping -/

/-- C10: the computed score is blurry iff the Laplacian variance is
strictly below the configured threshold — equality classifies as not
blurry — and the overall complexity is clamped into [0, 1]. -/
theorem C10_blur_strict_overall_clamped :
    ∀ bt ew tw bs ed td,
      ((ComplexityScorer.calculate bt ew tw bs ed td).is_blurry = true ↔ bs < bt) ∧
      (bs = bt → (ComplexityScorer.calculate bt ew tw bs ed td).is_blurry = false) ∧
      (0 ≤ (ComplexityScorer.calculate bt ew tw bs ed td).overall_complexity ∧
        (ComplexityScorer.calculate bt ew tw bs ed td).overall_complexity ≤ 1) := by
  intro bt ew tw bs ed td
  refine ⟨?_, fun heq => ?_, ?_, ?_⟩
  · simp [ComplexityScorer.calculate]
  · simp [ComplexityScorer.calculate, heq]
  · exact le_min zero_le_one (le_max_left 0 _)
  · exact min_le_left 1 _

/-- Witness for C10 at a concrete score whose variance equals the default
blur threshold 100. -/
theorem C10_blur_strict_overall_clamped_witness :
    (ComplexityScorer.calculate 100 (2/5) (3/5) 100 (1/5) (4/5)).is_blurry = false :=
  (C10_blur_strict_overall_clamped 100 (2/5) (3/5) 100 (1/5) (4/5)).2.1 rfl

/-! ## C4 — sufficiency gate -/

/-- C4: for an envelope carrying a confidence value, the gate returns
false exactly when two or more critical fields are missing (absent or
with a null/empty value) or the confidence is strictly below
`min_confidence`; missing two critical fields is insufficient at the
default minimum regardless of confidence, and confidence 0.4 with no
missing critical fields is insufficient at the default minimum. -/
theorem C4_sufficiency_gate :
    (∀ e c mc, e.confidence = some c →
      (isExtractionSufficient e mc = false ↔
        2 ≤ (checkCriticalFields e.fields).length ∨ c < mc)) ∧
    (∀ fields f, f ∈ checkCriticalFields fields ↔
      f ∈ CRITICAL_FIELDS ∧
        ∀ fd, pyGet fields f = some fd → fd.value.truthy = false) ∧
    (∀ e c, e.confidence = some c → 2 ≤ (checkCriticalFields e.fields).length →
      isExtractionSufficient e = false) ∧
    (∀ e, e.confidence = some (2/5) → checkCriticalFields e.fields = [] →
      isExtractionSufficient e = false) := by
  have hmain : ∀ e c mc, e.confidence = some c →
      (isExtractionSufficient e mc = false ↔
        2 ≤ (checkCriticalFields e.fields).length ∨ c < mc) := by
    intro e c mc h
    unfold isExtractionSufficient
    rw [h]
    simp only [Option.getD_some, ge_iff_le]
    split_ifs with h1 h2 <;> simp_all
  refine ⟨hmain, fun fields f => ?_, fun e c h hlen => ?_, fun e h hnone => ?_⟩
  · unfold checkCriticalFields
    rw [List.mem_filter]
    constructor
    · rintro ⟨hmem, hp⟩
      refine ⟨hmem, fun fd hfd => ?_⟩
      rw [hfd] at hp
      simpa using hp
    · rintro ⟨hmem, hp⟩
      refine ⟨hmem, ?_⟩
      cases hget : pyGet fields f with
      | none => simp
      | some fd => simpa using hp fd hget
  · exact (hmain e c _ h).mpr (Or.inl hlen)
  · refine (hmain e (2/5) _ h).mpr (Or.inr ?_)
    norm_num
/-- Witness for C4: gates evaluated on concrete envelopes — two missing
critical fields at confidence 0.99, and zero missing at confidence 0.4. -/
theorem C4_sufficiency_gate_witness :
    isExtractionSufficient
      { route := "ocr_first", complexity_score := exScoreTextDense,
        confidence := some (99/100),
        fields := [("event_name",
          { value := .vStr "X", confidence := some (99/100), source := "s" })],
        extra := [] } = false ∧
    isExtractionSufficient
      { route := "ocr_first", complexity_score := exScoreTextDense,
        confidence := some (2/5), fields := exGoodFields, extra := [] } = false :=
  ⟨C4_sufficiency_gate.2.2.1 _ (99/100) rfl (by decide),
   C4_sufficiency_gate.2.2.2 _ rfl (by decide)⟩

/-! ## C9 — the gate before validation -/

/-- C9: an envelope with no confidence key is treated as confidence 0.0,
hence insufficient for any positive minimum; and the envelope the
pipeline builds on the cheap route (checked before the validator runs)
never has a confidence key, so the pipeline's sufficiency check always
compares 0.0 with the minimum. -/
theorem C9_sufficiency_before_validation :
    (∀ e mc, e.confidence = none → 0 < mc → isExtractionSufficient e mc = false) ∧
    (∀ c ocr r, (buildOcrResult c ocr r).confidence = none) ∧
    (∀ c ocr r, isExtractionSufficient (buildOcrResult c ocr r) = false) :=
  ⟨sufficient_of_confidence_none,
   buildOcrResult_confidence,
   fun c ocr r =>
     sufficient_of_confidence_none _ _ (buildOcrResult_confidence c ocr r)
       (by norm_num)⟩

/-- Witness for C9 at the concrete cheap-route result built from the
example extraction. -/
theorem C9_sufficiency_before_validation_witness :
    isExtractionSufficient (buildOcrResult exScoreTextDense exOcr { fields := exGoodFields })
      = false :=
  C9_sufficiency_before_validation.1 _ (1/2) rfl (by norm_num)

/-! ## Helper lemmas: evaluating the rounding on concrete values

(`Rat.add`/`Rat.mul` are `@[irreducible]`, so concrete rational
arithmetic is evaluated through `norm_num` with these lemmas.) -/

/-- Evaluate `roundHalfEven` when the fractional part is below 1/2. -/
theorem roundHalfEven_eval_lo (q : ℚ) (n : ℤ) (h1 : (n:ℚ) ≤ q) (h2 : q < n + 1)
    (h3 : q - n < 1/2) : roundHalfEven q = n := by
  have hf : ⌊q⌋ = n := by rw [Int.floor_eq_iff]; exact ⟨h1, h2⟩
  unfold roundHalfEven
  rw [hf, if_pos h3]

/-- Evaluate `roundHalfEven` when the fractional part is above 1/2. -/
theorem roundHalfEven_eval_hi (q : ℚ) (n : ℤ) (h1 : (n:ℚ) ≤ q) (h2 : q < n + 1)
    (h3 : q - n > 1/2) : roundHalfEven q = n + 1 := by
  have hf : ⌊q⌋ = n := by rw [Int.floor_eq_iff]; exact ⟨h1, h2⟩
  unfold roundHalfEven
  rw [hf, if_neg (by linarith), if_pos h3]

/-- Evaluate `pyRound2` when the second decimal rounds down. -/
theorem pyRound2_eval_lo (q : ℚ) (n : ℤ) (h1 : (n:ℚ) ≤ q * 100) (h2 : q * 100 < n + 1)
    (h3 : q * 100 - n < 1/2) : pyRound2 q = n / 100 := by
  unfold pyRound2
  rw [roundHalfEven_eval_lo _ n h1 h2 h3]

/-! ## C6 — validator -/

/-- C6: `validate` assigns the rounded mean of the present fields'
confidences (0.0 with no fields) and appends warnings in the fixed order
missing-critical, low-confidence, low-field-confidence, exactly as the
specification's Contract A describes (warnings compared on their
type/fields/confidence content); fields at confidences 0.8 and 0.4 yield
overall confidence 0.6 (and hence no `low_confidence` warning). -/
theorem C6_validate_spec :
    (∀ e, (validate e).confidence = some (specOverallConfidence e.fields) ∧
      ((validate e).warnings.getD []).map (fun w => (w.wtype, w.fields, w.confidence))
        = specWarnings e.fields) ∧
    (validate exTwoFieldEnvelope).confidence = some (3/5) ∧
    ((validate exTwoFieldEnvelope).warnings.getD []).map (·.wtype)
      = ["missing_critical_fields", "low_field_confidence"] := by
  have hc : calculateOverallConfidence exTwoFieldEnvelope.fields = 3/5 := by
    unfold calculateOverallConfidence exTwoFieldEnvelope
    simp only [List.filterMap]
    norm_num
    rw [pyRound2_eval_lo _ 60] <;> norm_num
  refine ⟨fun e => ⟨rfl, ?_⟩, ?_, ?_⟩
  · simp only [validate, specWarnings, Option.getD_some, List.map_append,
      checkCriticalFields, checkLowConfidenceFields,
      specOverallConfidence, calculateOverallConfidence]
    split_ifs <;> simp_all
  · show some (calculateOverallConfidence _) = _
    rw [hc]
  · have hmiss : checkCriticalFields exTwoFieldEnvelope.fields = CRITICAL_FIELDS := by
      decide
    have hlow : checkLowConfidenceFields exTwoFieldEnvelope.fields = ["b"] := by
      unfold checkLowConfidenceFields exTwoFieldEnvelope
      norm_num [List.filter, Value.truthy]
      decide
    simp only [validate, Option.getD_some, hc, hmiss, hlow]
    norm_num [CRITICAL_FIELDS]

/-! ## Helper lemmas: field-map updates and the normalizer's domain -/

/-- `setField` leaves the entries at other keys untouched. -/
theorem pyGet_setField_ne (fs : Fields) (k g : String) (fd : FieldData)
    (h : g ≠ k) : pyGet (setField fs k fd) g = pyGet fs g := by
  induction fs with
  | nil => rfl
  | cons p rest ih =>
    simp only [setField, List.map_cons, pyGet]
    by_cases hp : p.1 = k
    · rw [if_pos hp,
        List.find?_cons_of_neg _ (by simp only [decide_eq_true_eq]; exact fun hkg => h hkg.symm),
        List.find?_cons_of_neg _ (by simp only [decide_eq_true_eq, hp]; exact fun hkg => h hkg.symm)]
      simpa [pyGet, setField] using ih
    · rw [if_neg hp]
      by_cases hpg : p.1 = g
      · rw [List.find?_cons_of_pos _ (by simp [hpg]), List.find?_cons_of_pos _ (by simp [hpg])]
      · rw [List.find?_cons_of_neg _ (by simp [hpg]), List.find?_cons_of_neg _ (by simp [hpg])]
        simpa [pyGet, setField] using ih

/-- `setField` rewrites the entry at its key (when present). -/
theorem pyGet_setField_self (fs : Fields) (k : String) (fd : FieldData)
    (h : (pyGet fs k).isSome) : pyGet (setField fs k fd) k = some fd := by
  induction fs with
  | nil => simp [pyGet] at h
  | cons p rest ih =>
    simp only [setField, List.map_cons, pyGet]
    by_cases hp : p.1 = k
    · rw [if_pos hp, List.find?_cons_of_pos _ (by simp)]
      rfl
    · rw [if_neg hp, List.find?_cons_of_neg _ (by simp [hp])]
      have hcons : pyGet (p :: rest) k = pyGet rest k := by
        simp only [pyGet]
        rw [List.find?_cons_of_neg _ (by simp [hp])]
      rw [hcons] at h
      simpa [pyGet, setField] using ih h

/-- A normalizer that sends strings to strings (all five value-level
normalizers do). -/
def StrNorm (norm : Value → Except String Value) : Prop :=
  ∀ s, ∃ t, norm (Value.vStr s) = .ok (Value.vStr t)

/-- `stringish` written on the optional lookup result. -/
def stringishAt (fs : Fields) (f : String) : Prop :=
  ∀ fd, pyGet fs f = some fd → fd.value.stringish = true

/-- One normalization step never raises on a stringish value, leaves the
other keys untouched, and leaves a stringish value at its key. -/
theorem normStep_sound (norm : Value → Except String Value) (f : String)
    (fs : Fields) (hn : StrNorm norm) (hs : stringishAt fs f) :
    ∃ fs', normStep norm f fs = .ok fs' ∧
      (∀ g, g ≠ f → pyGet fs' g = pyGet fs g) ∧ stringishAt fs' f := by
  cases hget : pyGet fs f with
  | none =>
    exact ⟨fs, by unfold normStep; rw [hget], fun g _ => rfl, hs⟩
  | some fd =>
    unfold normStep
    simp only [hget]
    cases hval : fd.value with
    | vNull =>
      simp only [Value.truthy, Bool.false_eq_true, if_false]
      exact ⟨fs, rfl, fun g _ => rfl, hs⟩
    | vNum q =>
      have hq : q = 0 := by
        have := hs fd hget
        rw [hval] at this
        simpa [Value.stringish] using this
      subst hq
      simp only [Value.truthy, ne_eq, not_true_eq_false, decide_False,
        Bool.false_eq_true, if_false]
      exact ⟨fs, rfl, fun g _ => rfl, hs⟩
    | vStr s =>
      obtain ⟨t, hok⟩ := hn s
      by_cases hse : s = ""
      · subst hse
        simp only [Value.truthy, ne_eq, not_true_eq_false, decide_False,
          Bool.false_eq_true, if_false]
        exact ⟨fs, rfl, fun g _ => rfl, hs⟩
      · rw [if_pos (by simp [Value.truthy, hse])]
        simp only [hok]
        by_cases hne : Value.vStr t ≠ Value.vStr s
        · rw [if_pos hne]
          refine ⟨_, rfl, fun g hg => pyGet_setField_ne fs f g _ hg, ?_⟩
          intro fd' hfd'
          rw [pyGet_setField_self fs f _ (by simp [hget])] at hfd'
          cases hfd'
          simp [Value.stringish]
        · rw [if_neg hne]
          exact ⟨fs, rfl, fun g _ => rfl, hs⟩

/-- Chaining the steps: when every step's normalizer sends strings to
strings and every touched key holds a stringish value, the whole fold
succeeds. -/
theorem foldSteps_ok (steps : List (String × (Value → Except String Value)))
    (fs : Fields) (hok : ∀ p ∈ steps, StrNorm p.2)
    (hsafe : ∀ f ∈ steps.map (·.1), stringishAt fs f) :
    ∃ fs', steps.foldlM (fun fs (st : String × _) => normStep st.2 st.1 fs) fs = .ok fs' := by
  induction steps generalizing fs with
  | nil => exact ⟨fs, rfl⟩
  | cons p rest ih =>
    obtain ⟨fs1, hstep, hpres, hat⟩ :=
      normStep_sound p.2 p.1 fs (hok p (by simp)) (hsafe p.1 (by simp))
    have hsafe1 : ∀ f ∈ rest.map (·.1), stringishAt fs1 f := by
      intro f hf
      by_cases hfp : f = p.1
      · exact hfp ▸ hat
      · intro fd hfd
        rw [hpres f hfp] at hfd
        exact hsafe f (by simp [hf]) fd hfd
    obtain ⟨fs', hrest⟩ := ih fs1 (fun q hq => hok q (by simp [hq])) hsafe1
    exact ⟨fs', by rw [List.foldlM_cons, hstep]; exact hrest⟩

/-- The date step sends strings to strings. -/
theorem strNorm_date (dp : DateParser) :
    StrNorm (fun v => .ok (normalizeDateV dp v)) := by
  intro s
  cases hdp : dp s with
  | none => exact ⟨s, by simp [normalizeDateV, hdp]⟩
  | some d => exact ⟨d.isoformat, by simp [normalizeDateV, hdp]⟩

/-- Every step of `FieldNormalizer.normalize` sends strings to strings. -/
theorem stepsOK_normalizeSteps (dp : DateParser) :
    ∀ p ∈ normalizeSteps dp, StrNorm p.2 := by
  intro p hp
  fin_cases hp <;>
    first
      | exact strNorm_date dp
      | exact fun s => ⟨normalizeTime s, rfl⟩
      | exact fun s => ⟨⟨normalizePhoneL s.data⟩, rfl⟩
      | exact fun s => ⟨⟨normalizeEmailL s.data⟩, rfl⟩
      | exact fun s => ⟨⟨normalizeUrlL s.data⟩, rfl⟩

/-- On a safe field map the normalizer never raises, and it only rewrites
the `fields` entry of the envelope. -/
theorem normalize_ok_of_safe (dp : DateParser) (e : Envelope)
    (h : safeFields e.fields = true) :
    ∃ fs', FieldNormalizer.normalize dp e = .ok { e with fields := fs' } := by
  have hsafe : ∀ f ∈ (normalizeSteps dp).map (·.1), stringishAt e.fields f := by
    intro f hf
    have hkeys : (normalizeSteps dp).map (·.1) = NORMALIZED_FIELDS := rfl
    rw [hkeys] at hf
    intro fd hfd
    rw [safeFields, List.all_eq_true] at h
    have := h f hf
    simp only [hfd] at this
    exact this
  obtain ⟨fs', hfold⟩ :=
    foldSteps_ok (normalizeSteps dp) e.fields (stepsOK_normalizeSteps dp) hsafe
  refine ⟨fs', ?_⟩
  unfold FieldNormalizer.normalize
  rw [hfold]
  rfl

/-- The normalizer touches only `fields`. -/
theorem normalize_components (dp : DateParser) (e e' : Envelope)
    (h : FieldNormalizer.normalize dp e = .ok e') :
    e'.type = e.type ∧ e'.route = e.route ∧
    e'.complexity_score = e.complexity_score ∧ e'.confidence = e.confidence ∧
    e'.extra = e.extra ∧ e'.raw = e.raw ∧ e'.warnings = e.warnings ∧
    e'.error = e.error := by
  revert h
  unfold FieldNormalizer.normalize
  cases (normalizeSteps dp).foldlM (fun fs (st : String × _) => normStep st.2 st.1 fs) e.fields with
  | error e0 => intro h; simp [Bind.bind, Except.bind] at h
  | ok fs =>
    intro h
    simp only [Bind.bind, Except.bind, Except.ok.injEq] at h
    rw [← h]
    exact ⟨rfl, rfl, rfl, rfl, rfl, rfl, rfl, rfl⟩

/-- An envelope with no fields passes through the normalizer unchanged. -/
theorem normalize_nil_fields (dp : DateParser) (e : Envelope)
    (h : e.fields = []) : FieldNormalizer.normalize dp e = .ok e := by
  obtain ⟨t, r, cs, conf, flds, ex, raw, w, err⟩ := e
  cases h
  rfl

/-- The validator touches only `confidence` and `warnings`. -/
theorem validate_components (e : Envelope) :
    (validate e).type = e.type ∧ (validate e).route = e.route ∧
    (validate e).complexity_score = e.complexity_score ∧
    (validate e).fields = e.fields ∧ (validate e).extra = e.extra ∧
    (validate e).raw = e.raw ∧ (validate e).error = e.error :=
  ⟨rfl, rfl, rfl, rfl, rfl, rfl, rfl⟩

/-- A failed vision-variant call (raised or structured error) yields the
error envelope: empty fields and extras, the preserved raw (if any), the
failure text in `error`. -/
theorem visionRoute_failed (c : ComplexityScore) (vres : CallResult LLMResult)
    (ro : Option String) (praw : Option RawData) (msg : String)
    (h : vres.failure = some msg) :
    visionRoute c vres ro praw =
      { route := routeNameOf ro, complexity_score := c, fields := [], extra := [],
        raw := praw, error := some msg } := by
  cases vres with
  | raised m =>
    simp only [CallResult.failure, Option.some.injEq] at h
    subst h
    rfl
  | ok r =>
    simp only [CallResult.failure] at h
    unfold visionRoute
    simp only [h]

/-- Validating an envelope with no fields: confidence 0.0, and exactly the
missing-critical and low-confidence warnings. -/
theorem validate_empty_fields (e : Envelope) (h : e.fields = []) :
    (validate e).confidence = some 0 ∧
    ((validate e).warnings.getD []).map (·.wtype)
      = ["missing_critical_fields", "low_confidence"] := by
  simp only [validate, h]
  refine ⟨rfl, ?_⟩
  have h0 : calculateOverallConfidence [] = 0 := rfl
  have hcrit : checkCriticalFields ([] : Fields) = CRITICAL_FIELDS := rfl
  have hlow : checkLowConfidenceFields ([] : Fields) = [] := rfl
  simp only [h0, hcrit, hlow, Option.getD_some]
  norm_num [CRITICAL_FIELDS]

/-- Core of C5: whenever the vision-variant call fails, the pipeline ends
in the error envelope of `_vision_route`, validated; the preserved raw is
either absent or the cheap route's raw payload. -/
theorem process_vision_failed (dp : DateParser) (th : ℚ) (c : ComplexityScore)
    (fr : Option String) (ocr : OcrOutput) (tres vres : CallResult LLMResult)
    (msg : String) (h : vres.failure = some msg) :
    ∃ praw route_name, (praw = none ∨ praw = some (cheapRaw c ocr)) ∧
      ExtractionPipeline.process dp th c fr ocr tres vres =
        .ok (validate { route := route_name, complexity_score := c, fields := [],
                        extra := [], raw := praw, error := some msg }) := by
  unfold ExtractionPipeline.process
  by_cases hroute : routeOf th c fr = "ocr_first"
  · simp only [hroute, if_true, reduceIte]
    cases tres with
    | raised m =>
      refine ⟨none, "ocr_fallback_vision", Or.inl rfl, ?_⟩
      have he := visionRoute_failed c vres (some "ocr_fallback_vision") none msg h
      simp only [ocrFirstRoute, he]
      rw [normalize_nil_fields dp _ rfl]
      rfl
    | ok r =>
      cases herr : r.error with
      | some e0 =>
        refine ⟨none, "ocr_fallback_vision", Or.inl rfl, ?_⟩
        have he := visionRoute_failed c vres (some "ocr_fallback_vision") none msg h
        simp only [ocrFirstRoute, herr, he]
        rw [normalize_nil_fields dp _ rfl]
        rfl
      | none =>
        refine ⟨some (cheapRaw c ocr), "ocr_fallback_vision", Or.inr rfl, ?_⟩
        have hsuff := sufficient_of_confidence_none (buildOcrResult c ocr r) (1/2)
          rfl (by norm_num)
        have he := visionRoute_failed c vres (some "ocr_fallback_vision")
          (some (cheapRaw c ocr)) msg h
        simp only [ocrFirstRoute, herr]
        rw [hsuff]
        simp only [Bool.false_eq_true, not_false_eq_true, if_true, buildOcrResult]
        rw [he]
        rw [normalize_nil_fields dp _ rfl]
        rfl
  · simp only [hroute, if_false, reduceIte]
    refine ⟨none, "vision", Or.inl rfl, ?_⟩
    have he := visionRoute_failed c vres none none msg h
    simp only [he]
    rw [normalize_nil_fields dp _ rfl]
    rfl

/-! ## C5 — vision-route failure is terminal but well-shaped -/

/-- C5: whenever the vision-variant field-extraction call fails (raised
exception or structured error), the pipeline performs no further retry:
the final envelope has empty `fields` and `extra`, `error` set to the
failure description, and — because normalization and validation still run
over the error-carrying envelope — a confidence value (0.0) and the
warnings list; the `raw` payload is the preserved cheap-route payload when
one was carried into the fallback, and absent otherwise. -/
theorem C5_vision_failure_terminal (dp : DateParser) (th : ℚ)
    (c : ComplexityScore) (fr : Option String) (ocr : OcrOutput)
    (tres vres : CallResult LLMResult) (msg : String)
    (h : vres.failure = some msg) :
    ((ExtractionPipeline.process dp th c fr ocr tres vres).map (·.fields) = .ok []) ∧
    ((ExtractionPipeline.process dp th c fr ocr tres vres).map (·.extra) = .ok []) ∧
    ((ExtractionPipeline.process dp th c fr ocr tres vres).map (·.error) = .ok (some msg)) ∧
    ((ExtractionPipeline.process dp th c fr ocr tres vres).map (·.confidence) = .ok (some 0)) ∧
    ((ExtractionPipeline.process dp th c fr ocr tres vres).map
        (fun e => (e.warnings.getD []).map (·.wtype))
      = .ok ["missing_critical_fields", "low_confidence"]) ∧
    ((ExtractionPipeline.process dp th c fr ocr tres vres).map (·.raw) = .ok none ∨
      (ExtractionPipeline.process dp th c fr ocr tres vres).map (·.raw)
        = .ok (some (cheapRaw c ocr))) := by
  obtain ⟨praw, rn, hpraw, hres⟩ := process_vision_failed dp th c fr ocr tres vres msg h
  have hve := validate_empty_fields
    { route := rn, complexity_score := c, fields := [], extra := [],
      raw := praw, error := some msg } rfl
  refine ⟨?_, ?_, ?_, ?_, ?_, ?_⟩
  · rw [hres]; rfl
  · rw [hres]; rfl
  · rw [hres]; rfl
  · rw [hres]
    simp only [Except.map]
    rw [hve.1]
  · rw [hres]
    simp only [Except.map]
    rw [hve.2]
  · rcases hpraw with hp | hp
    · left; rw [hres, hp]; rfl
    · right; rw [hres, hp]; rfl

/-- Witness for C5: a text-dense request whose vision call raises. -/
theorem C5_vision_failure_terminal_witness :
    ((ExtractionPipeline.process dpNone (7/10) exScoreTextDense none exOcr
        exLlmOk exLlmRaised).map (·.fields) = .ok []) ∧
    ((ExtractionPipeline.process dpNone (7/10) exScoreTextDense none exOcr
        exLlmOk exLlmRaised).map (·.error) = .ok (some "Gemini API unavailable")) ∧
    ((ExtractionPipeline.process dpNone (7/10) exScoreTextDense none exOcr
        exLlmOk exLlmRaised).map (·.confidence) = .ok (some 0)) := by
  have := C5_vision_failure_terminal dpNone (7/10) exScoreTextDense none exOcr
    exLlmOk exLlmRaised "Gemini API unavailable" rfl
  exact ⟨this.1, this.2.2.1, this.2.2.2.1⟩

/-! ## C1 — the cheap route's sufficiency gate misfires (code bug) -/

/-- C1: the spec's end-to-end scenario cannot occur.  A text-dense,
non-blurry request is routed to `ocr_first`; the field extraction succeeds
with all three critical fields present (0 missing) and validated
confidence 0.92 ≥ 0.5 — yet the pipeline falls back: the sufficiency
check runs on the just-built envelope, which has no `confidence` key (the
validator only assigns it later), so the gate compares 0.0 < 0.5 and the
final envelope has `route = "ocr_fallback_vision"`, not `"ocr_first"`. -/
theorem C1_sufficiency_gate_misfires :
    isExtractionSufficient
      (buildOcrResult exScoreTextDense exOcr { fields := exGoodFields }) = false ∧
    (ExtractionPipeline.process dpNone (7/10) exScoreTextDense none exOcr
        exLlmOk exLlmOk).map
        (fun e => (e.route, e.confidence, (checkCriticalFields e.fields).length))
      = .ok ("ocr_fallback_vision", some (23/25), 0) := by
  have hsuff : isExtractionSufficient
      (buildOcrResult exScoreTextDense exOcr { fields := exGoodFields }) = false :=
    sufficient_of_confidence_none _ _ rfl (by norm_num)
  refine ⟨hsuff, ?_⟩
  have hroute : routeOf (7/10) exScoreTextDense none = "ocr_first" := by
    unfold routeOf RouteDecider.decide exScoreTextDense
    norm_num
  have hocr : ocrFirstRoute exScoreTextDense exOcr exLlmOk exLlmOk
      = visionRoute exScoreTextDense exLlmOk (some "ocr_fallback_vision")
          (some (cheapRaw exScoreTextDense exOcr)) := by
    simp only [ocrFirstRoute, exLlmOk]
    rw [hsuff]
    simp only [Bool.false_eq_true, not_false_eq_true, if_true, buildOcrResult]
  have hconf : calculateOverallConfidence exGoodFields = 23/25 := by
    unfold calculateOverallConfidence exGoodFields
    simp only [List.filterMap]
    norm_num
    rw [pyRound2_eval_lo _ 92] <;> norm_num
  have hnorm : FieldNormalizer.normalize dpNone
      (visionRoute exScoreTextDense exLlmOk (some "ocr_fallback_vision")
        (some (cheapRaw exScoreTextDense exOcr)))
      = .ok (visionRoute exScoreTextDense exLlmOk (some "ocr_fallback_vision")
          (some (cheapRaw exScoreTextDense exOcr))) := by rfl
  unfold ExtractionPipeline.process
  rw [hroute]
  simp only [reduceIte]
  rw [hocr, hnorm]
  simp only [Except.map, Except.ok.injEq, Prod.mk.injEq]
  refine ⟨rfl, ?_, by decide⟩
  show some (calculateOverallConfidence exGoodFields) = some (23/25)
  rw [hconf]

/-! ## C2 — error-triggered fallback and the raw payload -/

/-- C2 counterexample: a cheap-route request whose `text_to_json` returns
a structured error falls back with `route = "ocr_fallback_vision"` — but
the cheap route's raw diagnostic payload is NOT preserved: the final
envelope's `raw` is the vision route's default debug payload, whose
`ocr_text` is absent, although the OCR port had produced
"EVENT POSTER". -/
theorem C2_raw_not_preserved_counterexample :
    ((ExtractionPipeline.process dpNone (7/10) exScoreTextDense none exOcr
        exLlmErr exLlmOk).map (fun e => (e.route, e.raw))
      = .ok ("ocr_fallback_vision", some (visionDefaultRaw exScoreTextDense))) ∧
    some (visionDefaultRaw exScoreTextDense)
      ≠ some (cheapRaw exScoreTextDense exOcr) ∧
    (cheapRaw exScoreTextDense exOcr).ocr_text = some "EVENT POSTER" ∧
    (visionDefaultRaw exScoreTextDense).ocr_text = none := by
  have hroute : routeOf (7/10) exScoreTextDense none = "ocr_first" := by
    unfold routeOf RouteDecider.decide exScoreTextDense
    norm_num
  refine ⟨?_, by decide, rfl, rfl⟩
  unfold ExtractionPipeline.process
  rw [hroute]
  rfl

/-- C2 (amended): on a cheap-route request whose `text_to_json` call
raises or returns a structured error, the pipeline falls back and the
final envelope has `route = "ocr_fallback_vision"`, but the cheap route's
raw payload is not carried over — the final `raw` is the vision route's
default debug payload when the vision call succeeds, and absent when the
vision call also fails. -/
theorem C2_error_fallback_route (dp : DateParser) (th : ℚ)
    (c : ComplexityScore) (fr : Option String) (ocr : OcrOutput)
    (tres vres : CallResult LLMResult) (msg : String)
    (htext : tres.failure = some msg)
    (hroute : routeOf th c fr = "ocr_first")
    (hsafe : vres.safe = true) :
    ((ExtractionPipeline.process dp th c fr ocr tres vres).map (·.route)
        = .ok "ocr_fallback_vision") ∧
    ((ExtractionPipeline.process dp th c fr ocr tres vres).map (·.raw)
        = .ok (match vres.failure with
               | some _ => none
               | none => some (visionDefaultRaw c))) := by
  have hvr : ExtractionPipeline.process dp th c fr ocr tres vres
      = (FieldNormalizer.normalize dp
          (visionRoute c vres (some "ocr_fallback_vision") none)).map validate := by
    unfold ExtractionPipeline.process
    simp only [hroute, reduceIte]
    cases tres with
    | raised m => rfl
    | ok r =>
      cases herr : r.error with
      | some e0 => simp only [ocrFirstRoute, herr]
      | none => exact absurd htext (by simp [CallResult.failure, herr])
  rw [hvr]
  cases hfail : vres.failure with
  | some m =>
    have he := visionRoute_failed c vres (some "ocr_fallback_vision") none m hfail
    rw [he, normalize_nil_fields dp _ rfl]
    exact ⟨rfl, rfl⟩
  | none =>
    obtain ⟨r, hr⟩ : ∃ r, vres = .ok r := by
      cases vres with
      | ok r => exact ⟨r, rfl⟩
      | raised m => simp [CallResult.failure] at hfail
    subst hr
    have herr : r.error = none := by simpa [CallResult.failure] using hfail
    have hE : visionRoute c (.ok r) (some "ocr_fallback_vision") none =
        { route := "ocr_fallback_vision", complexity_score := c, fields := r.fields,
          extra := r.extra, raw := some (visionDefaultRaw c) } := by
      unfold visionRoute
      simp only [herr]
      rfl
    have hsafe' : safeFields r.fields = true := by
      simpa [CallResult.safe] using hsafe
    rw [hE]
    obtain ⟨fs', hnorm⟩ := normalize_ok_of_safe dp
      { route := "ocr_fallback_vision", complexity_score := c, fields := r.fields,
        extra := r.extra, raw := some (visionDefaultRaw c) } hsafe'
    rw [hnorm]
    exact ⟨rfl, rfl⟩

/-- Witness for C2 (amended) at the counterexample input. -/
theorem C2_error_fallback_route_witness :
    ((ExtractionPipeline.process dpNone (7/10) exScoreTextDense none exOcr
        exLlmErr exLlmOk).map (·.route) = .ok "ocr_fallback_vision") ∧
    ((ExtractionPipeline.process dpNone (7/10) exScoreTextDense none exOcr
        exLlmErr exLlmOk).map (·.raw)
      = .ok (some (visionDefaultRaw exScoreTextDense))) := by
  have h := C2_error_fallback_route dpNone (7/10) exScoreTextDense none exOcr
    exLlmErr exLlmOk "Invalid JSON response" rfl
    (by unfold routeOf RouteDecider.decide exScoreTextDense; norm_num)
    (by decide)
  exact ⟨h.1, h.2⟩

/-! ## Helper lemmas: character classes -/

theorem digit_toNat_bounds (c : Char) (h : c.isDigit = true) :
    48 ≤ c.toNat ∧ c.toNat ≤ 57 := by
  simp only [Char.isDigit, Bool.and_eq_true, decide_eq_true_eq] at h
  exact ⟨h.1, h.2⟩

theorem digVal_le (c : Char) (h : c.isDigit = true) : digVal c ≤ 9 := by
  have := digit_toNat_bounds c h
  unfold digVal
  omega

theorem digitChar10_digVal (c : Char) (h : c.isDigit = true) :
    digitChar10 (digVal c) = c := by
  obtain ⟨h1, h2⟩ := digit_toNat_bounds c h
  unfold digitChar10 digVal
  rw [show 48 + (c.toNat - 48) % 10 = c.toNat from by omega]
  exact Char.ofNat_toNat c

theorem digitChar10_isDigit (n : Nat) : (digitChar10 n).isDigit = true := by
  have h : n % 10 = 0 ∨ n % 10 = 1 ∨ n % 10 = 2 ∨ n % 10 = 3 ∨ n % 10 = 4 ∨
      n % 10 = 5 ∨ n % 10 = 6 ∨ n % 10 = 7 ∨ n % 10 = 8 ∨ n % 10 = 9 := by omega
  unfold digitChar10
  rcases h with h|h|h|h|h|h|h|h|h|h <;> rw [h] <;> decide

theorem isDigit_ne (c d : Char) (h : c.isDigit = true) (hd : d.isDigit = false) :
    c ≠ d := by
  intro he
  subst he
  rw [h] at hd
  cases hd

theorem digit_not_space (c : Char) (h : c.isDigit = true) :
    isPySpace c = false := by
  obtain ⟨h1, h2⟩ := digit_toNat_bounds c h
  rw [Bool.eq_false_iff]
  intro hsp
  simp only [isPySpace, Bool.or_eq_true, decide_eq_true_eq] at hsp
  rcases hsp with ((((rfl | rfl) | rfl) | rfl) | rfl) | rfl <;> simp_all

theorem toLowerAscii_digit (c : Char) (h : c.isDigit = true) :
    toLowerAscii c = c := by
  obtain ⟨h1, h2⟩ := digit_toNat_bounds c h
  unfold toLowerAscii
  rw [if_neg]
  rintro ⟨ha, -⟩
  have h65 : 65 ≤ c.toNat := ha
  omega

theorem colon_facts : (':' : Char).isDigit = false ∧ (':' : Char) ≠ '-' ∧
    isPySpace ':' = false ∧ toLowerAscii ':' = ':' ∧ (':' : Char) ≠ 't' := by
  refine ⟨rfl, ?_, rfl, ?_, ?_⟩ <;> decide

/-- Characters of an `HH:MM`-shaped chunk are digits or `:`; none is a
separator, a whitespace character, or lowercases to `t`. -/
def isHHMM (t : List Char) : Prop :=
  ∃ d1 d2 m1 m2, t = [d1, d2, ':', m1, m2] ∧ d1.isDigit = true ∧
    d2.isDigit = true ∧ m1.isDigit = true ∧ m2.isDigit = true

theorem hhmm_chars (t : List Char) (h : isHHMM t) :
    ∀ c ∈ t, c ≠ '-' ∧ isPySpace c = false ∧ toLowerAscii c = c ∧ c ≠ 't' := by
  obtain ⟨d1, d2, m1, m2, rfl, h1, h2, h3, h4⟩ := h
  intro c hc
  simp only [List.mem_cons, List.not_mem_nil, or_false] at hc
  rcases hc with rfl | rfl | rfl | rfl | rfl
  · exact ⟨isDigit_ne _ _ h1 (by decide), digit_not_space _ h1,
      toLowerAscii_digit _ h1, isDigit_ne _ _ h1 (by decide)⟩
  · exact ⟨isDigit_ne _ _ h2 (by decide), digit_not_space _ h2,
      toLowerAscii_digit _ h2, isDigit_ne _ _ h2 (by decide)⟩
  · exact ⟨colon_facts.2.1, colon_facts.2.2.1, colon_facts.2.2.2.1,
      colon_facts.2.2.2.2⟩
  · exact ⟨isDigit_ne _ _ h3 (by decide), digit_not_space _ h3,
      toLowerAscii_digit _ h3, isDigit_ne _ _ h3 (by decide)⟩
  · exact ⟨isDigit_ne _ _ h4 (by decide), digit_not_space _ h4,
      toLowerAscii_digit _ h4, isDigit_ne _ _ h4 (by decide)⟩

/-! ## Helper lemmas: Python string primitives -/

theorem contains_eq_false_of (l : List Char) (a : Char)
    (h : ∀ c ∈ l, c ≠ a) : l.contains a = false := by
  rw [Bool.eq_false_iff]
  intro hc
  obtain ⟨a', ha', hbeq⟩ := List.contains_iff_exists_mem_beq.mp hc
  exact h a' ha' (eq_of_beq hbeq).symm

theorem containsSub_to_false (l : List Char) (h : ∀ c ∈ l, c ≠ 't') :
    containsSub l ['t', 'o'] = false := by
  induction l with
  | nil => rfl
  | cons c rest ih =>
    have hc : (('t' : Char) == c) = false := by
      rw [beq_eq_false_iff_ne]
      exact fun he => h c (by simp) he.symm
    simp only [containsSub, List.isPrefixOf, hc, Bool.false_and, Bool.false_or]
    exact ih (fun x hx => h x (by simp [hx]))

theorem pyLower_fixed (l : List Char) (h : ∀ c ∈ l, toLowerAscii c = c) :
    pyLower l = l := by
  unfold pyLower
  exact List.map_congr_left h |>.trans (List.map_id l)

theorem dropWhile_eq_self_of_head (p : Char → Bool) (l : List Char)
    (h : ∀ c, l.head? = some c → p c = false) : l.dropWhile p = l := by
  cases l with
  | nil => rfl
  | cons c rest =>
    rw [List.dropWhile_cons, if_neg]
    simp [h c rfl]

theorem head?_dropWhile (p : Char → Bool) (l : List Char) (c : Char)
    (h : (l.dropWhile p).head? = some c) : p c = false := by
  induction l with
  | nil => simp at h
  | cons a rest ih =>
    rw [List.dropWhile_cons] at h
    by_cases hp : p a = true
    · rw [if_pos hp] at h
      exact ih h
    · rw [if_neg hp] at h
      simp only [List.head?_cons, Option.some.injEq] at h
      subst h
      simpa using hp

theorem dropWhile_dropWhile (p : Char → Bool) (l : List Char) :
    (l.dropWhile p).dropWhile p = l.dropWhile p := by
  apply dropWhile_eq_self_of_head
  exact head?_dropWhile p l

theorem pyStrip_eq_self_of (x : List Char)
    (hh : ∀ c, x.head? = some c → isPySpace c = false)
    (hl : ∀ c, x.getLast? = some c → isPySpace c = false) : pyStrip x = x := by
  unfold pyStrip
  rw [dropWhile_eq_self_of_head _ _ hh]
  rw [dropWhile_eq_self_of_head _ _ (fun c hc => hl c (by rwa [List.head?_reverse] at hc))]
  exact List.reverse_reverse x

theorem pyStrip_noop (l : List Char) (h : ∀ c ∈ l, isPySpace c = false) :
    pyStrip l = l := by
  apply pyStrip_eq_self_of
  · intro c hc
    exact h c (by cases l with
      | nil => simp at hc
      | cons a rest => simp at hc; simp [hc])
  · intro c hc
    exact h c (List.mem_of_getLast?_eq_some hc)

theorem head?_pyStrip (l : List Char) (c : Char)
    (h : (pyStrip l).head? = some c) : isPySpace c = false := by
  unfold pyStrip at h
  set w := (l.dropWhile isPySpace) with hw
  -- pyStrip l is a prefix of w, whose head is clean
  have hpre : ((w.reverse.dropWhile isPySpace).reverse : List Char) <+: w := by
    have h1 : (w.reverse.dropWhile isPySpace).reverse <+: w.reverse.reverse :=
      List.reverse_prefix.mpr (List.dropWhile_suffix _)
    rwa [List.reverse_reverse] at h1
  obtain ⟨r, hr⟩ := hpre
  have : w.head? = some c := by
    rw [← hr, List.head?_append, h]
    rfl
  exact head?_dropWhile _ _ _ this

theorem getLast?_pyStrip (l : List Char) (c : Char)
    (h : (pyStrip l).getLast? = some c) : isPySpace c = false := by
  unfold pyStrip at h
  rw [List.getLast?_reverse] at h
  exact head?_dropWhile _ _ _ h

theorem pyStrip_idem (l : List Char) : pyStrip (pyStrip l) = pyStrip l :=
  pyStrip_eq_self_of _ (head?_pyStrip l) (getLast?_pyStrip l)

/-! ## Helper lemmas: the time patterns -/

theorem colonMM_some (l : List Char) (mm : List Char) (mer : Option Meridiem)
    (h : colonMM l = some (mm, mer)) :
    ∃ m1 m2 rest, l = ':' :: m1 :: m2 :: rest ∧ m1.isDigit = true ∧
      m2.isDigit = true ∧ mm = [m1, m2] := by
  unfold colonMM at h
  split at h
  · next m1 m2 rest =>
    split at h
    · next hd =>
      simp only [Option.some.injEq, Prod.mk.injEq] at h
      rw [Bool.and_eq_true] at hd
      exact ⟨m1, m2, rest, rfl, hd.1, hd.2, h.1.symm⟩
    · cases h
  · cases h

theorem matchP1At_some (l : List Char) (h : Nat) (mm : List Char)
    (mer : Option Meridiem) (hm : matchP1At l = some (h, mm, mer)) :
    h ≤ 99 ∧ ∃ m1 m2, m1.isDigit = true ∧ m2.isDigit = true ∧ mm = [m1, m2] := by
  unfold matchP1At at hm
  split at hm
  · next c1 rest =>
    split at hm
    · next hc1 =>
      split at hm
      · next c2 rest2 =>
        split at hm
        · next hc2 =>
          cases hmm : colonMM rest2 with
          | none => rw [hmm] at hm; cases hm
          | some r =>
            rw [hmm] at hm
            simp only [Option.map_some', Option.some.injEq, Prod.mk.injEq] at hm
            obtain ⟨hmh, hmr⟩ := hm
            obtain ⟨m1, m2, rest3, -, hm1, hm2, hmmr⟩ :=
              colonMM_some rest2 r.1 r.2 (by rw [hmm])
            have hb1 := digVal_le c1 hc1
            have hb2 := digVal_le c2 hc2
            refine ⟨by omega, m1, m2, hm1, hm2, ?_⟩
            rw [hmr] at hmmr
            exact hmmr
        · next hc2 =>
          cases hmm : colonMM (c2 :: rest2) with
          | none => rw [hmm] at hm; cases hm
          | some r =>
            rw [hmm] at hm
            simp only [Option.map_some', Option.some.injEq, Prod.mk.injEq] at hm
            obtain ⟨hmh, hmr⟩ := hm
            obtain ⟨m1, m2, rest3, -, hm1, hm2, hmmr⟩ :=
              colonMM_some _ r.1 r.2 (by rw [hmm])
            have hb1 := digVal_le c1 hc1
            refine ⟨by omega, m1, m2, hm1, hm2, ?_⟩
            rw [hmr] at hmmr
            exact hmmr
      · cases hm
    · cases hm
  · cases hm

theorem searchP1_some (l : List Char) (h : Nat) (mm : List Char)
    (mer : Option Meridiem) (hs : searchP1 l = some (h, mm, mer)) :
    h ≤ 99 ∧ ∃ m1 m2, m1.isDigit = true ∧ m2.isDigit = true ∧ mm = [m1, m2] := by
  induction l with
  | nil => cases hs
  | cons c rest ih =>
    unfold searchP1 at hs
    cases hm : matchP1At (c :: rest) with
    | some r =>
      rw [hm] at hs
      cases hs
      exact matchP1At_some _ _ _ _ hm
    | none =>
      rw [hm] at hs
      exact ih hs

theorem matchP2At_some (l : List Char) (h : Nat) (mer : Meridiem)
    (hm : matchP2At l = some (h, mer)) : h ≤ 99 := by
  unfold matchP2At at hm
  split at hm
  · next c1 rest =>
    split at hm
    · next hc1 =>
      split at hm
      · next c2 rest2 =>
        split at hm
        · next hc2 =>
          cases hmer : merAfterSpaces rest2 with
          | none => rw [hmer] at hm; cases hm
          | some m =>
            rw [hmer] at hm
            simp only [Option.map_some', Option.some.injEq, Prod.mk.injEq] at hm
            have hb1 := digVal_le c1 hc1
            have hb2 := digVal_le c2 hc2
            omega
        · next hc2 =>
          cases hmer : merAfterSpaces (c2 :: rest2) with
          | none => rw [hmer] at hm; cases hm
          | some m =>
            rw [hmer] at hm
            simp only [Option.map_some', Option.some.injEq, Prod.mk.injEq] at hm
            have hb1 := digVal_le c1 hc1
            omega
      · cases hm
    · cases hm
  · cases hm

theorem searchP2_some (l : List Char) (h : Nat) (mer : Meridiem)
    (hs : searchP2 l = some (h, mer)) : h ≤ 99 := by
  induction l with
  | nil => cases hs
  | cons c rest ih =>
    unfold searchP2 at hs
    cases hm : matchP2At (c :: rest) with
    | some r =>
      rw [hm] at hs
      cases hs
      exact matchP2At_some _ _ _ hm
    | none =>
      rw [hm] at hs
      exact ih hs

theorem adjustHour_le (h : Nat) (mer : Option Meridiem) (hb : h ≤ 99) :
    adjustHour h mer ≤ 99 := by
  unfold adjustHour
  split_ifs with h1 h2 <;> omega

theorem pad2_digits (n : Nat) (h : n ≤ 99) :
    pad2 n = [digitChar10 (n / 10), digitChar10 n] := by
  unfold pad2
  rw [if_pos (by omega)]

/-- Every successful conversion produces an `HH:MM` chunk. -/
theorem convertTo24h_shape (l t : List Char) (h : convertTo24h l = some t) :
    isHHMM t := by
  unfold convertTo24h at h
  cases hs1 : searchP1 l with
  | some r =>
    obtain ⟨hr, mm, mer⟩ := r
    rw [hs1] at h
    simp only [Option.some.injEq] at h
    obtain ⟨hb, m1, m2, hm1, hm2, hmm⟩ := searchP1_some l hr mm mer hs1
    have hadj := adjustHour_le hr mer hb
    refine ⟨digitChar10 (adjustHour hr mer / 10), digitChar10 (adjustHour hr mer),
      m1, m2, ?_, digitChar10_isDigit _, digitChar10_isDigit _, hm1, hm2⟩
    rw [← h, pad2_digits _ hadj, hmm]
    rfl
  | none =>
    rw [hs1] at h
    cases hs2 : searchP2 l with
    | some r =>
      obtain ⟨hr, mer⟩ := r
      rw [hs2] at h
      simp only [Option.some.injEq] at h
      have hb := searchP2_some l hr mer hs2
      have hadj := adjustHour_le hr (some mer) hb
      refine ⟨digitChar10 (adjustHour hr (some mer) / 10),
        digitChar10 (adjustHour hr (some mer)), '0', '0', ?_,
        digitChar10_isDigit _, digitChar10_isDigit _, by decide, by decide⟩
      rw [← h, pad2_digits _ hadj]
      rfl
    | none =>
      rw [hs2] at h
      cases h

/-- Converting an `HH:MM` chunk returns it unchanged. -/
theorem convertTo24h_fixed (t : List Char) (h : isHHMM t) :
    convertTo24h t = some t := by
  obtain ⟨d1, d2, m1, m2, rfl, h1, h2, h3, h4⟩ := h
  have hsearch : searchP1 [d1, d2, ':', m1, m2]
      = some (digVal d1 * 10 + digVal d2, [m1, m2], none) := by
    simp [searchP1, matchP1At, colonMM, merAfterSpaces, merAt, h1, h2, h3, h4]
  have hd2 := digVal_le d2 h2
  have hd1 := digVal_le d1 h1
  have hh : digVal d1 * 10 + digVal d2 ≤ 99 := by omega
  have hadj : adjustHour (digVal d1 * 10 + digVal d2) none
      = digVal d1 * 10 + digVal d2 := by simp [adjustHour]
  unfold convertTo24h
  simp only [hsearch, hadj, pad2_digits _ hh]
  have e1 : (digVal d1 * 10 + digVal d2) / 10 = digVal d1 := by omega
  have e2 : digitChar10 (digVal d1 * 10 + digVal d2) = digitChar10 (digVal d2) := by
    unfold digitChar10
    congr 1
    omega
  rw [e1, e2, digitChar10_digVal d1 h1, digitChar10_digVal d2 h2]
  rfl

/-! ## Helper lemmas: the separator split -/

theorem matchSepAt_nil : matchSepAt [] = none := rfl

theorem matchSepAt_none_of (c : Char) (rest : List Char)
    (hns : isPySpace c = false) (hnd : c ≠ '-') :
    matchSepAt (c :: rest) = none := by
  unfold matchSepAt
  rw [List.takeWhile_cons, if_neg (by simp [hns])]
  simp only [List.length_nil, List.drop_zero]
  split
  · simp_all
  · exact if_neg (fun hcond => absurd hcond.1 (by omega))
  · rfl

theorem matchSepAt_dash (rest : List Char) :
    matchSepAt ('-' :: rest) = some (1 + (rest.takeWhile isPySpace).length) := by
  unfold matchSepAt
  rw [List.takeWhile_cons, if_neg (by decide)]
  simp

/-- Scanning a separator-free chunk just moves it into the accumulator. -/
theorem splitSepGo_clean (u : List Char)
    (h : ∀ c ∈ u, isPySpace c = false ∧ c ≠ '-') (fuel : Nat) :
    ∀ rest acc, splitSepGo (u.length + fuel + 1) (u ++ rest) acc
      = splitSepGo (fuel + 1) rest (u.reverse ++ acc) := by
  induction u with
  | nil => intro rest acc; simp
  | cons c u' ih =>
    intro rest acc
    have hc := h c (by simp)
    have hms : matchSepAt (c :: (u' ++ rest)) = none :=
      matchSepAt_none_of _ _ hc.1 hc.2
    have hfuel : (c :: u').length + fuel + 1 = (u'.length + fuel + 1) + 1 := by
      simp [List.length_cons]
      omega
    rw [List.cons_append, hfuel]
    show splitSepGo ((u'.length + fuel + 1) + 1) (c :: (u' ++ rest)) acc = _
    rw [splitSepGo, hms]
    rw [ih (fun x hx => h x (by simp [hx])) rest (c :: acc)]
    simp [List.reverse_cons, List.append_assoc]

/-- Splitting two `HH:MM` chunks joined by `-` recovers the chunks. -/
theorem splitSep_hhmm (sa sb : List Char) (ha : isHHMM sa) (hb : isHHMM sb) :
    splitSep (sa ++ '-' :: sb) = [sa, sb] := by
  have hca : ∀ c ∈ sa, isPySpace c = false ∧ c ≠ '-' :=
    fun c hc => ⟨(hhmm_chars sa ha c hc).2.1, (hhmm_chars sa ha c hc).1⟩
  have hcb : ∀ c ∈ sb, isPySpace c = false ∧ c ≠ '-' :=
    fun c hc => ⟨(hhmm_chars sb hb c hc).2.1, (hhmm_chars sb hb c hc).1⟩
  have htw : sb.takeWhile isPySpace = [] := by
    obtain ⟨e1, e2, n1, n2, rfl, he1, -, -, -⟩ := hb
    rw [List.takeWhile_cons, if_neg (by simp [digit_not_space _ he1])]
  unfold splitSep
  have hlen : (sa ++ '-' :: sb).length + 1 = sa.length + (sb.length + 1) + 1 := by
    simp only [List.length_append, List.length_cons]
  rw [hlen, splitSepGo_clean sa hca (sb.length + 1) ('-' :: sb) []]
  show splitSepGo ((sb.length + 1) + 1) ('-' :: sb) (sa.reverse ++ []) = _
  rw [splitSepGo, matchSepAt_dash, htw]
  simp only [List.length_nil, Nat.add_zero, List.append_nil, List.reverse_reverse]
  show sa :: splitSepGo (sb.length + 1) (('-' :: sb).drop 1) [] = [sa, sb]
  rw [List.drop_succ_cons, List.drop_zero]
  have hsb : splitSepGo (sb.length + 1) sb [] = splitSepGo (0 + 1) [] (sb.reverse ++ []) := by
    have := splitSepGo_clean sb hcb 0 [] []
    simpa using this
  rw [hsb, splitSepGo, matchSepAt_nil]
  simp

/-- The range guard is off for an `HH:MM` chunk. -/
theorem hhmm_guard_false (t : List Char) (h : isHHMM t) :
    (t.contains '-' || containsSub (pyLower t) ['t', 'o']) = false := by
  have hch := hhmm_chars t h
  rw [contains_eq_false_of t '-' (fun c hc => (hch c hc).1),
    pyLower_fixed t (fun c hc => (hch c hc).2.2.1),
    containsSub_to_false t (fun c hc => (hch c hc).2.2.2)]
  rfl

/-- A single-value conversion result is the input or an `HH:MM` chunk. -/
theorem convertTo24h_getD_cases (l : List Char) :
    (convertTo24h l).getD l = l ∨ isHHMM ((convertTo24h l).getD l) := by
  cases hconv : convertTo24h l with
  | none => left; rfl
  | some t =>
    right
    rw [Option.getD_some]
    exact convertTo24h_shape l t hconv

/-- Every output of `_normalize_time` is the input itself, a single
`HH:MM` chunk, or two chunks joined by `-`. -/
theorem normalizeTimeL_cases (l : List Char) :
    normalizeTimeL l = l ∨ isHHMM (normalizeTimeL l) ∨
    (∃ sa sb, isHHMM sa ∧ isHHMM sb ∧ normalizeTimeL l = sa ++ '-' :: sb) := by
  have hsingle : (convertTo24h l).getD l = l ∨ isHHMM ((convertTo24h l).getD l) :=
    convertTo24h_getD_cases l
  unfold normalizeTimeL
  by_cases hg : (l.contains '-' || containsSub (pyLower l) ['t', 'o']) = true
  · rw [if_pos hg]
    cases hsp : splitSep l with
    | nil => exact hsingle.imp id Or.inl
    | cons a tail =>
      cases tail with
      | nil => exact hsingle.imp id Or.inl
      | cons b tail2 =>
        cases tail2 with
        | cons x tail3 => exact hsingle.imp id Or.inl
        | nil =>
          cases hcb : convertTo24h (pyStrip b) with
          | none =>
            cases hca : convertTo24h (pyStrip a) with
            | none => simp only [hca, hcb]; exact hsingle.imp id Or.inl
            | some sa => simp only [hca, hcb]; exact hsingle.imp id Or.inl
          | some sb =>
            cases hca : convertTo24h (pyStrip a) with
            | none => simp only [hca, hcb]; exact hsingle.imp id Or.inl
            | some sa =>
              simp only [hca, hcb]
              right; right
              exact ⟨sa, sb, convertTo24h_shape _ _ hca,
                convertTo24h_shape _ _ hcb, rfl⟩
  · rw [if_neg hg]
    exact hsingle.imp id Or.inl

/-- `_normalize_time` leaves an `HH:MM` chunk unchanged. -/
theorem normalizeTimeL_hhmm_fixed (t : List Char) (h : isHHMM t) :
    normalizeTimeL t = t := by
  unfold normalizeTimeL
  rw [hhmm_guard_false t h]
  simp only [Bool.false_eq_true, if_false]
  rw [convertTo24h_fixed t h]
  rfl

/-- `_normalize_time` leaves a rejoined range of `HH:MM` chunks
unchanged. -/
theorem normalizeTimeL_range_fixed (sa sb : List Char)
    (ha : isHHMM sa) (hb : isHHMM sb) :
    normalizeTimeL (sa ++ '-' :: sb) = sa ++ '-' :: sb := by
  have hg : ((sa ++ '-' :: sb).contains '-'
      || containsSub (pyLower (sa ++ '-' :: sb)) ['t', 'o']) = true := by
    have hm : ((sa ++ '-' :: sb).contains '-') = true :=
      List.contains_iff_exists_mem_beq.mpr ⟨'-', by simp, by simp⟩
    simp [hm]
  have hstripa : pyStrip sa = sa :=
    pyStrip_noop sa (fun c hc => (hhmm_chars sa ha c hc).2.1)
  have hstripb : pyStrip sb = sb :=
    pyStrip_noop sb (fun c hc => (hhmm_chars sb hb c hc).2.1)
  unfold normalizeTimeL
  rw [hg]
  simp only [if_true]
  rw [splitSep_hhmm sa sb ha hb]
  simp only [hstripa, hstripb, convertTo24h_fixed sa ha, convertTo24h_fixed sb hb]

/-- C8/C7 core: `_normalize_time` is idempotent. -/
theorem normalizeTimeL_idem (l : List Char) :
    normalizeTimeL (normalizeTimeL l) = normalizeTimeL l := by
  rcases normalizeTimeL_cases l with h | h | ⟨sa, sb, ha, hb, h⟩
  · rw [h, h]
  · exact normalizeTimeL_hhmm_fixed _ h
  · rw [h]
    exact normalizeTimeL_range_fixed sa sb ha hb

/-- `_normalize_time` at `String` level is idempotent. -/
theorem normalizeTime_idem (s : String) :
    normalizeTime (normalizeTime s) = normalizeTime s := by
  unfold normalizeTime
  rw [show (⟨normalizeTimeL s.data⟩ : String).data = normalizeTimeL s.data from rfl,
    normalizeTimeL_idem]

/-! ## Helper lemmas: phone, email, URL idempotence -/

theorem toNat_ofNat_valid (n : Nat) (h : n.isValidChar) :
    (Char.ofNat n).toNat = n := by
  rw [Char.ofNat, dif_pos h]
  rfl

theorem toLowerAscii_idem (c : Char) :
    toLowerAscii (toLowerAscii c) = toLowerAscii c := by
  unfold toLowerAscii
  split_ifs with h1 h2
  · obtain ⟨ha, hz⟩ := h1
    have hA : (65 : Nat) ≤ c.toNat := ha
    have hZ : c.toNat ≤ 90 := hz
    have hv : (c.toNat + 32).isValidChar := Or.inl (by omega)
    have h90 : (Char.ofNat (c.toNat + 32)).toNat ≤ 90 := h2.2
    rw [toNat_ofNat_valid _ hv] at h90
    omega
  · rfl
  · rfl

theorem isPySpace_toLowerAscii (c : Char) :
    isPySpace (toLowerAscii c) = isPySpace c := by
  unfold toLowerAscii
  split_ifs with h1
  · obtain ⟨ha, hz⟩ := h1
    have hA : (65 : Nat) ≤ c.toNat := ha
    have hZ : c.toNat ≤ 90 := hz
    have hv : (c.toNat + 32).isValidChar := Or.inl (by omega)
    have hup : isPySpace c = false := by
      rw [Bool.eq_false_iff]
      intro hsp
      simp only [isPySpace, Bool.or_eq_true, decide_eq_true_eq] at hsp
      rcases hsp with ((((rfl | rfl) | rfl) | rfl) | rfl) | rfl <;> simp_all
    have hlow : isPySpace (Char.ofNat (c.toNat + 32)) = false := by
      rw [Bool.eq_false_iff]
      intro hsp
      simp only [isPySpace, Bool.or_eq_true, decide_eq_true_eq] at hsp
      have hval := toNat_ofNat_valid _ hv
      rcases hsp with ((((he | he) | he) | he) | he) | he <;>
        rw [he] at hval <;> simp_all
    rw [hup, hlow]
  · rfl

theorem pyLower_idem (l : List Char) : pyLower (pyLower l) = pyLower l := by
  unfold pyLower
  rw [List.map_map]
  exact List.map_congr_left (fun c _ => toLowerAscii_idem c)

theorem pyLower_pyStrip_comm (l : List Char) :
    pyLower (pyStrip l) = pyStrip (pyLower l) := by
  unfold pyLower pyStrip
  have hdw : ∀ (x : List Char),
      List.dropWhile isPySpace (List.map toLowerAscii x)
        = List.map toLowerAscii (List.dropWhile isPySpace x) := by
    intro x
    rw [List.dropWhile_map]
    have hp : (isPySpace ∘ toLowerAscii) = isPySpace :=
      funext fun c => isPySpace_toLowerAscii c
    rw [hp]
  rw [hdw, ← List.map_reverse, hdw, List.map_reverse]

theorem normalizeEmailL_idem (l : List Char) :
    normalizeEmailL (normalizeEmailL l) = normalizeEmailL l := by
  unfold normalizeEmailL
  rw [pyLower_pyStrip_comm, pyLower_idem, pyStrip_idem]

theorem isPrefixOf_append_self (a r : List Char) :
    a.isPrefixOf (a ++ r) = true := by
  induction a with
  | nil => simp
  | cons c rest ih => simp [List.isPrefixOf, ih]


theorem url_fixed_of_http (u : List Char)
    (hstrip : pyStrip u = u)
    (hhttp : ("http://".data.isPrefixOf u || "https://".data.isPrefixOf u) = true) :
    normalizeUrlL u = u := by
  unfold normalizeUrlL
  rw [hstrip, if_pos hhttp]

theorem pyStrip_https_append (u : List Char)
    (hlast : ∀ c, u.getLast? = some c → isPySpace c = false) :
    pyStrip ("https://".data ++ u) = "https://".data ++ u := by
  apply pyStrip_eq_self_of
  · intro c hc
    rw [List.head?_append] at hc
    rw [show (("https://".data.head?).or u.head? : Option Char) = some 'h' from rfl] at hc
    cases hc
    decide
  · intro c hc
    rw [List.getLast?_append] at hc
    cases hu : u.getLast? with
    | some c' =>
      rw [hu] at hc
      rw [show ((some c').or ("https://".data.getLast?) : Option Char) = some c' from rfl] at hc
      cases hc
      exact hlast c hu
    | none =>
      rw [hu] at hc
      rw [show ((Option.none).or ("https://".data.getLast?) : Option Char)
          = some '/' from rfl] at hc
      cases hc
      decide

theorem normalizeUrlL_https_fixed (u : List Char)
    (hlast : ∀ c, u.getLast? = some c → isPySpace c = false) :
    normalizeUrlL ("https://".data ++ u) = "https://".data ++ u :=
  url_fixed_of_http _ (pyStrip_https_append u hlast)
    (Bool.or_eq_true _ _ |>.mpr (Or.inr (isPrefixOf_append_self _ u)))

theorem normalizeUrlL_idem (l : List Char) :
    normalizeUrlL (normalizeUrlL l) = normalizeUrlL l := by
  have hstrip_idem : pyStrip (pyStrip l) = pyStrip l := pyStrip_idem l
  have hlast : ∀ c, (pyStrip l).getLast? = some c → isPySpace c = false :=
    getLast?_pyStrip l
  by_cases h1 : ("http://".data.isPrefixOf (pyStrip l)
      || "https://".data.isPrefixOf (pyStrip l)) = true
  · have hout : normalizeUrlL l = pyStrip l := by
      unfold normalizeUrlL
      rw [if_pos h1]
    rw [hout]
    exact url_fixed_of_http _ hstrip_idem h1
  · by_cases h2 : (pyStrip l).contains '.' = true
        ∧ ¬ ("www.".data.isPrefixOf (pyStrip l) = true)
    · have hout : normalizeUrlL l = "https://".data ++ pyStrip l := by
        unfold normalizeUrlL
        rw [if_neg h1, if_pos h2]
      rw [hout]
      exact normalizeUrlL_https_fixed _ hlast
    · by_cases h3 : ("www.".data.isPrefixOf (pyStrip l)) = true
      · have hout : normalizeUrlL l = "https://".data ++ pyStrip l := by
          unfold normalizeUrlL
          rw [if_neg h1, if_neg h2, if_pos h3]
        rw [hout]
        exact normalizeUrlL_https_fixed _ hlast
      · have hout : normalizeUrlL l = pyStrip l := by
          unfold normalizeUrlL
          rw [if_neg h1, if_neg h2, if_neg h3]
        rw [hout]
        unfold normalizeUrlL
        rw [hstrip_idem, if_neg h1, if_neg h2, if_neg h3]

theorem pyDigits_of_digits (d : List Char) (h : ∀ c ∈ d, c.isDigit = true) :
    pyDigits d = d :=
  List.filter_eq_self.mpr h

theorem digits_stitch (d : List Char) :
    d.take 3 ++ (d.drop 3).take 3 ++ (d.drop 3).drop 3 = d := by
  rw [List.append_assoc, List.take_append_drop, List.take_append_drop]

/-- The digits of the `(XXX) XXX-XXXX` output are the input digits. -/
theorem pyDigits_format10 (d : List Char) (h : ∀ c ∈ d, c.isDigit = true) :
    pyDigits ('(' :: d.take 3 ++ ')' :: ' ' :: (d.drop 3).take 3
      ++ '-' :: d.drop 6) = d := by
  have ht3 : ∀ c ∈ d.take 3, c.isDigit = true :=
    fun c hc => h c (List.mem_of_mem_take hc)
  have hd3t : ∀ c ∈ (d.drop 3).take 3, c.isDigit = true :=
    fun c hc => h c (List.mem_of_mem_drop (List.mem_of_mem_take hc))
  have hd6 : ∀ c ∈ d.drop 6, c.isDigit = true :=
    fun c hc => h c (List.mem_of_mem_drop hc)
  unfold pyDigits
  simp only [List.filter_cons, List.filter_append,
    show ('(' : Char).isDigit = false from rfl,
    show (')' : Char).isDigit = false from rfl,
    show (' ' : Char).isDigit = false from rfl,
    show ('-' : Char).isDigit = false from rfl,
    Bool.false_eq_true, if_false]
  rw [List.filter_eq_self.mpr ht3, List.filter_eq_self.mpr hd3t,
    List.filter_eq_self.mpr hd6,
    show d.drop 6 = (d.drop 3).drop 3 from by rw [List.drop_drop]]
  exact digits_stitch d

/-- The digits of the `+1 (XXX) XXX-XXXX` output are the input digits. -/
theorem pyDigits_format11 (d : List Char) (h : ∀ c ∈ d, c.isDigit = true)
    (hh : d.head? = some '1') :
    pyDigits ('+' :: '1' :: ' ' :: '(' :: (d.drop 1).take 3 ++ ')' :: ' '
      :: (d.drop 4).take 3 ++ '-' :: d.drop 7) = d := by
  have ht3 : ∀ c ∈ (d.drop 1).take 3, c.isDigit = true :=
    fun c hc => h c (List.mem_of_mem_drop (List.mem_of_mem_take hc))
  have hd4t : ∀ c ∈ (d.drop 4).take 3, c.isDigit = true :=
    fun c hc => h c (List.mem_of_mem_drop (List.mem_of_mem_take hc))
  have hd7 : ∀ c ∈ d.drop 7, c.isDigit = true :=
    fun c hc => h c (List.mem_of_mem_drop hc)
  unfold pyDigits
  simp only [List.filter_cons, List.filter_append,
    show ('(' : Char).isDigit = false from rfl,
    show (')' : Char).isDigit = false from rfl,
    show (' ' : Char).isDigit = false from rfl,
    show ('-' : Char).isDigit = false from rfl,
    show ('+' : Char).isDigit = false from rfl,
    show ('1' : Char).isDigit = true from rfl,
    Bool.false_eq_true, if_false, if_true]
  rw [List.filter_eq_self.mpr ht3, List.filter_eq_self.mpr hd4t,
    List.filter_eq_self.mpr hd7,
    show d.drop 7 = ((d.drop 1).drop 3).drop 3 from by
      rw [List.drop_drop, List.drop_drop],
    show d.drop 4 = (d.drop 1).drop 3 from by rw [List.drop_drop]]
  simp only [List.cons_append, List.append_assoc]
  rw [show (d.drop 1).take 3 ++ (((d.drop 1).drop 3).take 3
      ++ ((d.drop 1).drop 3).drop 3) = d.drop 1 from by
    rw [← List.append_assoc]
    exact digits_stitch _]
  cases d with
  | nil => cases hh
  | cons c t =>
    simp only [List.head?_cons, Option.some.injEq] at hh
    rw [hh]
    rfl

theorem normalizePhoneL_idem (l : List Char) :
    normalizePhoneL (normalizePhoneL l) = normalizePhoneL l := by
  have hdig : ∀ c ∈ pyDigits l, c.isDigit = true :=
    fun c hc => List.of_mem_filter hc
  by_cases h10 : (pyDigits l).length = 10
  · have hout : normalizePhoneL l = '(' :: (pyDigits l).take 3 ++ ')' :: ' '
        :: ((pyDigits l).drop 3).take 3 ++ '-' :: (pyDigits l).drop 6 := by
      unfold normalizePhoneL
      rw [if_pos h10]
    rw [hout]
    unfold normalizePhoneL
    rw [pyDigits_format10 (pyDigits l) hdig, if_pos h10]
  · by_cases h11 : (pyDigits l).length = 11 ∧ (pyDigits l).head? = some '1'
    · have hout : normalizePhoneL l = '+' :: '1' :: ' ' :: '('
          :: ((pyDigits l).drop 1).take 3 ++ ')' :: ' '
          :: ((pyDigits l).drop 4).take 3 ++ '-' :: (pyDigits l).drop 7 := by
        unfold normalizePhoneL
        rw [if_neg h10, if_pos h11]
      rw [hout]
      unfold normalizePhoneL
      rw [pyDigits_format11 (pyDigits l) hdig h11.2, if_neg h10, if_pos h11]
    · have hout : normalizePhoneL l = l := by
        unfold normalizePhoneL
        rw [if_neg h10, if_neg h11]
      rw [hout, hout]

/-! ## Helper lemmas: idempotence of the whole normalization pass -/

/-- A value normalizer whose outputs are fixed points. -/
def NormIdem (norm : Value → Except String Value) : Prop :=
  ∀ v nv, norm v = .ok nv → norm nv = .ok nv

/-- A successful step leaves other keys' entries alone (unconditionally). -/
theorem normStep_preserves_other (norm : Value → Except String Value)
    (f : String) (fs fs' : Fields) (h : normStep norm f fs = .ok fs')
    (g : String) (hg : g ≠ f) : pyGet fs' g = pyGet fs g := by
  unfold normStep at h
  cases hget : pyGet fs f with
  | none =>
    rw [hget] at h
    cases h
    rfl
  | some fd =>
    simp only [hget] at h
    by_cases ht : fd.value.truthy = true
    · rw [if_pos ht] at h
      cases hnv : norm fd.value with
      | error e0 => simp only [hnv] at h; cases h
      | ok nv =>
        simp only [hnv] at h
        by_cases hne : nv ≠ fd.value
        · rw [if_pos hne] at h
          cases h
          exact pyGet_setField_ne fs f g _ hg
        · rw [if_neg hne] at h
          cases h
          rfl
    · rw [if_neg ht] at h
      cases h
      rfl

/-- The result of a successful step is a fixed point of that step. -/
theorem normStep_fixed_result (norm : Value → Except String Value)
    (f : String) (fs fs' : Fields) (hni : NormIdem norm)
    (h : normStep norm f fs = .ok fs') : normStep norm f fs' = .ok fs' := by
  unfold normStep at h ⊢
  cases hget : pyGet fs f with
  | none =>
    rw [hget] at h
    cases h
    rw [hget]
  | some fd =>
    simp only [hget] at h
    by_cases ht : fd.value.truthy = true
    · rw [if_pos ht] at h
      cases hnv : norm fd.value with
      | error e0 => simp only [hnv] at h; cases h
      | ok nv =>
        simp only [hnv] at h
        by_cases hne : nv ≠ fd.value
        · rw [if_pos hne] at h
          cases h
          have hself : pyGet (setField fs f { fd with value := nv, normalized := true }) f
              = some { fd with value := nv, normalized := true } :=
            pyGet_setField_self fs f _ (by simp [hget])
          simp only [hself]
          by_cases ht2 : ({ fd with value := nv, normalized := true } : FieldData).value.truthy = true
          · rw [if_pos ht2]
            simp only [hni fd.value nv hnv]
            rw [if_neg (by simp)]
          · rw [if_neg ht2]
        · rw [if_neg hne] at h
          cases h
          simp only [hget]
          rw [if_pos ht]
          simp only [hnv]
          rw [if_neg hne]
    · rw [if_neg ht] at h
      cases h
      simp only [hget]
      rw [if_neg ht]

/-- A fixed point of a step stays fixed on any map with the same entry at
the step's key. -/
theorem normStep_fixed_transfer (norm : Value → Except String Value)
    (f : String) (fs1 fs2 : Fields)
    (hfix : normStep norm f fs1 = .ok fs1)
    (hget : pyGet fs2 f = pyGet fs1 f) : normStep norm f fs2 = .ok fs2 := by
  unfold normStep at hfix ⊢
  cases hg1 : pyGet fs1 f with
  | none => simp only [hget, hg1]
  | some fd =>
    simp only [hg1] at hfix
    simp only [hget, hg1]
    by_cases ht : fd.value.truthy = true
    · rw [if_pos ht] at hfix ⊢
      cases hnv : norm fd.value with
      | error e0 => simp only [hnv] at hfix; cases hfix
      | ok nv =>
        simp only [hnv] at hfix ⊢
        by_cases hne : nv ≠ fd.value
        · exfalso
          rw [if_pos hne] at hfix
          injection hfix with hf
          have h1 : pyGet (setField fs1 f { fd with value := nv, normalized := true }) f
              = some { fd with value := nv, normalized := true } :=
            pyGet_setField_self fs1 f _ (by simp [hg1])
          rw [hf, hg1] at h1
          injection h1 with h2
          exact hne (show nv = fd.value from (congrArg FieldData.value h2).symm)
        · rw [if_neg hne]
    · rw [if_neg ht] at hfix ⊢

/-- A successful fold leaves keys outside its step list untouched. -/
theorem foldSteps_preserves (steps : List (String × (Value → Except String Value)))
    (fs fs' : Fields)
    (h : steps.foldlM (fun fs (st : String × _) => normStep st.2 st.1 fs) fs = .ok fs')
    (g : String) (hg : g ∉ steps.map (·.1)) : pyGet fs' g = pyGet fs g := by
  induction steps generalizing fs with
  | nil =>
    cases h
    rfl
  | cons q rest ih =>
    rw [List.foldlM_cons] at h
    cases hq : normStep q.2 q.1 fs with
    | error e0 =>
      rw [hq] at h
      simp only [bind, Except.bind] at h
      cases h
    | ok fs1 =>
      rw [hq] at h
      simp only [bind, Except.bind] at h
      have hgq : g ≠ q.1 := fun he => hg (by simp [he])
      rw [ih fs1 h (fun he => hg (by simp [he]))]
      exact normStep_preserves_other q.2 q.1 fs fs1 hq g hgq

/-- After a successful full pass, every step is a fixed point of the
result (keys pairwise distinct). -/
theorem foldSteps_all_fixed (steps : List (String × (Value → Except String Value)))
    (fs fs' : Fields) (hni : ∀ p ∈ steps, NormIdem p.2)
    (hnodup : (steps.map (·.1)).Nodup)
    (h : steps.foldlM (fun fs (st : String × _) => normStep st.2 st.1 fs) fs = .ok fs') :
    ∀ p ∈ steps, normStep p.2 p.1 fs' = .ok fs' := by
  induction steps generalizing fs with
  | nil => intro p hp; cases hp
  | cons q rest ih =>
    rw [List.foldlM_cons] at h
    cases hq : normStep q.2 q.1 fs with
    | error e0 =>
      rw [hq] at h
      simp only [bind, Except.bind] at h
      cases h
    | ok fs1 =>
      rw [hq] at h
      simp only [bind, Except.bind] at h
      simp only [List.map_cons, List.nodup_cons] at hnodup
      intro p hp
      rcases List.mem_cons.mp hp with rfl | hp'
      · have hfix1 : normStep p.2 p.1 fs1 = .ok fs1 :=
          normStep_fixed_result p.2 p.1 fs fs1 (hni p (by simp)) hq
        have hpres : pyGet fs' p.1 = pyGet fs1 p.1 :=
          foldSteps_preserves rest fs1 fs' h p.1 hnodup.1
        exact normStep_fixed_transfer p.2 p.1 fs1 fs' hfix1 hpres
      · exact ih fs1 (fun r hr => hni r (List.mem_cons_of_mem q hr)) hnodup.2 h p hp'

/-- A map on which every step is fixed passes through the fold
unchanged. -/
theorem foldSteps_of_fixed (steps : List (String × (Value → Except String Value)))
    (fs : Fields) (h : ∀ p ∈ steps, normStep p.2 p.1 fs = .ok fs) :
    steps.foldlM (fun fs (st : String × _) => normStep st.2 st.1 fs) fs = .ok fs := by
  induction steps with
  | nil => rfl
  | cons q rest ih =>
    rw [List.foldlM_cons, h q (by simp)]
    simp only [bind, Except.bind]
    exact ih (fun r hr => h r (by simp [hr]))

/-- An ISO-stable date parser: it re-parses its own ISO output to the same
date (true of `dateparser` on `YYYY-MM-DD` input). -/
def DateParserISOStable (dp : DateParser) : Prop :=
  ∀ s d, dp s = some d → dp d.isoformat = some d

/-- Under ISO stability, `_normalize_date` is idempotent. -/
theorem normalizeDateV_idem (dp : DateParser) (hdp : DateParserISOStable dp)
    (v : Value) : normalizeDateV dp (normalizeDateV dp v) = normalizeDateV dp v := by
  cases v with
  | vStr s =>
    cases hd : dp s with
    | none =>
      have h1 : normalizeDateV dp (.vStr s) = .vStr s := by
        unfold normalizeDateV
        simp only [hd]
      rw [h1]
      exact h1
    | some d =>
      have h1 : normalizeDateV dp (.vStr s) = .vStr d.isoformat := by
        unfold normalizeDateV
        simp only [hd]
      rw [h1]
      unfold normalizeDateV
      simp only [hdp s d hd]
  | vNum q => rfl
  | vNull => rfl

/-- The date step's value normalizer is idempotent. -/
theorem normIdem_date (dp : DateParser) (hdp : DateParserISOStable dp) :
    NormIdem (fun v => .ok (normalizeDateV dp v)) := by
  intro v nv h
  injection h with h1
  subst h1
  show Except.ok (normalizeDateV dp (normalizeDateV dp v)) = _
  rw [normalizeDateV_idem dp hdp v]

/-- The time step's value normalizer is idempotent. -/
theorem normIdem_time : NormIdem normalizeTimeV := by
  intro v nv h
  cases v with
  | vStr s =>
    injection h with h1
    subst h1
    show Except.ok (Value.vStr (normalizeTime (normalizeTime s))) = _
    rw [normalizeTime_idem]
  | vNum q => cases h
  | vNull =>
    injection h with h1
    subst h1
    rfl

/-- The phone step's value normalizer is idempotent. -/
theorem normIdem_phone : NormIdem normalizePhoneV := by
  intro v nv h
  cases v with
  | vStr s =>
    injection h with h1
    subst h1
    show Except.ok (Value.vStr ⟨normalizePhoneL (normalizePhoneL s.data)⟩) = _
    rw [normalizePhoneL_idem]
  | vNum q => cases h
  | vNull =>
    injection h with h1
    subst h1
    rfl

/-- The email step's value normalizer is idempotent. -/
theorem normIdem_email : NormIdem normalizeEmailV := by
  intro v nv h
  cases v with
  | vStr s =>
    injection h with h1
    subst h1
    show Except.ok (Value.vStr ⟨normalizeEmailL (normalizeEmailL s.data)⟩) = _
    rw [normalizeEmailL_idem]
  | vNum q => cases h
  | vNull =>
    injection h with h1
    subst h1
    rfl

/-- The URL step's value normalizer is idempotent. -/
theorem normIdem_url : NormIdem normalizeUrlV := by
  intro v nv h
  cases v with
  | vStr s =>
    injection h with h1
    subst h1
    show Except.ok (Value.vStr ⟨normalizeUrlL (normalizeUrlL s.data)⟩) = _
    rw [normalizeUrlL_idem]
  | vNum q => cases h
  | vNull =>
    injection h with h1
    subst h1
    rfl

/-- Every step of `normalizeSteps` has an idempotent value normalizer. -/
theorem normIdem_steps (dp : DateParser) (hdp : DateParserISOStable dp) :
    ∀ p ∈ normalizeSteps dp, NormIdem p.2 := by
  intro p hp
  fin_cases hp
  · exact normIdem_date dp hdp
  · exact normIdem_date dp hdp
  · exact normIdem_date dp hdp
  · exact normIdem_time
  · exact normIdem_time
  · exact normIdem_time
  · exact normIdem_phone
  · exact normIdem_email
  · exact normIdem_url
  · exact normIdem_url

/-- The step keys of `normalizeSteps` are pairwise distinct. -/
theorem normalizeSteps_keys_nodup (dp : DateParser) :
    ((normalizeSteps dp).map (·.1)).Nodup := by
  have hkeys : (normalizeSteps dp).map (·.1) = NORMALIZED_FIELDS := rfl
  rw [hkeys]
  decide

/-- A successful pass of `FieldNormalizer.normalize` yields a fixed point:
running it again returns the same envelope (date parser ISO-stable). -/
theorem normalize_idem_of_ok (dp : DateParser) (hdp : DateParserISOStable dp)
    (e e' : Envelope) (h : FieldNormalizer.normalize dp e = .ok e') :
    FieldNormalizer.normalize dp e' = .ok e' := by
  unfold FieldNormalizer.normalize at h ⊢
  cases hfold : (normalizeSteps dp).foldlM
      (fun fs (step : String × _) => normStep step.2 step.1 fs) e.fields with
  | error e0 =>
    rw [hfold] at h
    simp only [bind, Except.bind] at h
    cases h
  | ok fs =>
    rw [hfold] at h
    simp only [bind, Except.bind] at h
    cases h
    have hall : ∀ p ∈ normalizeSteps dp, normStep p.2 p.1 fs = .ok fs :=
      foldSteps_all_fixed (normalizeSteps dp) e.fields fs
        (normIdem_steps dp hdp) (normalizeSteps_keys_nodup dp) hfold
    have hfix : (normalizeSteps dp).foldlM
        (fun fs (step : String × _) => normStep step.2 step.1 fs)
        ({ e with fields := fs } : Envelope).fields = .ok fs :=
      foldSteps_of_fixed (normalizeSteps dp) fs hall
    rw [hfix]
    simp only [bind, Except.bind]

/-- C7 (counterexample to totality): `FieldNormalizer.normalize` is NOT
total — on an envelope whose `time` field holds the truthy non-string
value `5`, the `'in'` membership test of `_normalize_time` raises an
uncaught `TypeError`, which escapes `normalize`. -/
theorem C7_normalize_raises_counterexample :
    FieldNormalizer.normalize dpNone exNumTimeEnvelope
      = .error "TypeError: argument of type 'int' is not iterable" := by
  rfl

/-- C7 (amended): on envelopes whose normalizable fields are absent or
hold string/falsy values — all the extraction adapters of this repo
produce — `FieldNormalizer.normalize` succeeds, and it is idempotent:
re-normalizing its output yields the same envelope (date parser assumed
ISO-stable, as `dateparser` is on `YYYY-MM-DD`). -/
theorem C7_normalize_idempotent (dp : DateParser) (e : Envelope)
    (hdp : DateParserISOStable dp) (hsafe : safeFields e.fields = true) :
    (∃ e', FieldNormalizer.normalize dp e = .ok e') ∧
    Except.bind (FieldNormalizer.normalize dp e) (FieldNormalizer.normalize dp)
      = FieldNormalizer.normalize dp e := by
  obtain ⟨fs', hok⟩ := normalize_ok_of_safe dp e hsafe
  refine ⟨⟨_, hok⟩, ?_⟩
  rw [hok]
  show FieldNormalizer.normalize dp { e with fields := fs' } = _
  exact normalize_idem_of_ok dp hdp e _ hok

/-- Concrete instance of `C7_normalize_idempotent`: the all-rewrites
example envelope under the nothing-parses date parser. -/
theorem C7_normalize_idempotent_witness :
    (∃ e', FieldNormalizer.normalize dpNone exNormEnvelope = .ok e') ∧
    Except.bind (FieldNormalizer.normalize dpNone exNormEnvelope)
        (FieldNormalizer.normalize dpNone)
      = FieldNormalizer.normalize dpNone exNormEnvelope :=
  C7_normalize_idempotent dpNone exNormEnvelope
    (fun _ _ h => nomatch h) (by decide)

/-- C8: `_normalize_time` — when the input contains a range separator
(`-` anywhere, or `to` case-insensitively) and splits into exactly two
parts, both endpoints are converted independently and rejoined with `-`;
without a separator, unconvertible input is returned as-is; `pm` with
hour < 12 adds 12 and `am` with hour 12 becomes 0; a matched
`H(:MM)? (am|pm)?` pattern is zero-padded to `HH:MM`; `"9am-5pm"`
normalizes to `"09:00-17:00"` and `"14:30"` stays `"14:30"`. -/
theorem C8_time_normalization :
    (∀ s : String, ∀ a b sa sb : List Char,
      (s.data.contains '-' || containsSub (pyLower s.data) ['t', 'o']) = true →
      splitSep s.data = [a, b] →
      convertTo24h (pyStrip a) = some sa →
      convertTo24h (pyStrip b) = some sb →
      normalizeTime s = ⟨sa ++ '-' :: sb⟩) ∧
    (∀ s : String,
      (s.data.contains '-' || containsSub (pyLower s.data) ['t', 'o']) = false →
      convertTo24h s.data = none →
      normalizeTime s = s) ∧
    (∀ hour : Nat, hour < 12 → adjustHour hour (some .pm) = hour + 12) ∧
    (adjustHour 12 (some .am) = 0) ∧
    (∀ l minute : List Char, ∀ hour : Nat, ∀ mer : Option Meridiem,
      searchP1 l = some (hour, minute, mer) →
      convertTo24h l = some (pad2 (adjustHour hour mer) ++ ':' :: minute)) ∧
    normalizeTime "9am-5pm" = "09:00-17:00" ∧
    normalizeTime "14:30" = "14:30" := by
  refine ⟨?_, ?_, ?_, ?_, ?_, ?_, ?_⟩
  · intro s a b sa sb hg hsplit hsa hsb
    show (⟨normalizeTimeL s.data⟩ : String) = _
    unfold normalizeTimeL
    simp only [hg, if_true, hsplit, hsa, hsb]
  · intro s hg hconv
    show (⟨normalizeTimeL s.data⟩ : String) = s
    unfold normalizeTimeL
    simp only [hg, Bool.false_eq_true, if_false]
    rw [hconv]
    rfl
  · intro hour hlt
    unfold adjustHour
    rw [if_pos ⟨rfl, hlt⟩]
  · decide
  · intro l minute hour mer h
    unfold convertTo24h
    simp only [h]
  · rfl
  · rfl

/-- Concrete instance of the range rule of `C8_time_normalization`:
`"9:00 to 17:00"` splits on the worded separator and rejoins as
`"09:00-17:00"`. -/
theorem C8_time_normalization_witness :
    normalizeTime "9:00 to 17:00" = "09:00-17:00" :=
  C8_time_normalization.1 "9:00 to 17:00" "9:00".data "17:00".data
    "09:00".data "17:00".data (by decide) (by decide) (by decide) (by decide)
